import Mathlib

/-!
Verification of the authentication & session subsystem of
sikigasa/github-task-controller (Go).

The development shallowly embeds the Go code:

* `Crypto`  — SHA-256, HMAC-SHA256 (Go crypto/sha256, crypto/hmac) and
  raw-URL base64 (Go encoding/base64 RawURLEncoding), all over byte lists
  (`List Nat`, each element < 256).
* `GoJson`  — the fragment of encoding/json the session store exercises:
  flat objects mapping string keys to primitive values.  Go decodes every
  JSON number into `float64`; the model keeps Go's dynamic values as the
  inductive `GoValue`, with `vInt` / `vFloat` distinguished exactly as
  `int64` and `float64` are distinguished by Go type assertions.
* `SessionStore` — the signed-cookie store (internal/infrastructure/session).
* `Usecase` — AuthUsecase (internal/application/usecase/auth.go).
* `Handler` — AuthHandler (internal/interface/handler/auth_handler.go) and
  AuthMiddleware (internal/interface/middleware).

Go strings are byte lists; `bs` turns an ASCII Lean literal into its bytes.
-/

namespace GoAuth

/-- Bytes of an ASCII string literal (model of a Go string constant). -/
def bs (s : String) : List Nat := s.data.map Char.toNat

namespace Crypto

/-- Truncation to 32 bits. -/
def m32 (n : Nat) : Nat := n % 4294967296

/-- 32-bit right rotation. -/
def rotr (n x : Nat) : Nat := m32 ((x >>> n) ||| (x <<< (32 - n)))

/-- 32-bit complement. -/
def not32 (x : Nat) : Nat := 4294967295 ^^^ x

def ch (e f g : Nat) : Nat := (e &&& f) ^^^ (not32 e &&& g)

def maj (a b c : Nat) : Nat := (a &&& b) ^^^ (a &&& c) ^^^ (b &&& c)

def bigSigma0 (x : Nat) : Nat := rotr 2 x ^^^ rotr 13 x ^^^ rotr 22 x

def bigSigma1 (x : Nat) : Nat := rotr 6 x ^^^ rotr 11 x ^^^ rotr 25 x

def smallSigma0 (x : Nat) : Nat := rotr 7 x ^^^ rotr 18 x ^^^ (x >>> 3)

def smallSigma1 (x : Nat) : Nat := rotr 17 x ^^^ rotr 19 x ^^^ (x >>> 10)

/-- The 64 SHA-256 round constants (FIPS 180-4). -/
def K : List Nat :=
  [1116352408, 1899447441, 3049323471, 3921009573, 961987163, 1508970993,
   2453635748, 2870763221, 3624381080, 310598401, 607225278, 1426881987,
   1925078388, 2162078206, 2614888103, 3248222580, 3835390401, 4022224774,
   264347078, 604807628, 770255983, 1249150122, 1555081692, 1996064986,
   2554220882, 2821834349, 2952996808, 3210313671, 3336571891, 3584528711,
   113926993, 338241895, 666307205, 773529912, 1294757372, 1396182291,
   1695183700, 1986661051, 2177026350, 2456956037, 2730485921, 2820302411,
   3259730800, 3345764771, 3516065817, 3600352804, 4094571909, 275423344,
   430227734, 506948616, 659060556, 883997877, 958139571, 1322822218,
   1537002063, 1747873779, 1955562222, 2024104815, 2227730452, 2361852424,
   2428436474, 2756734187, 3204031479, 3329325298]

/-- Working state of the compression function. -/
structure St where
  a : Nat
  b : Nat
  c : Nat
  d : Nat
  e : Nat
  f : Nat
  g : Nat
  h : Nat

/-- Initial hash value (FIPS 180-4). -/
def H0 : St :=
  ⟨1779033703, 3144134277, 1013904242, 2773480762,
   1359893119, 2600822924, 528734635, 1541459225⟩

/-- One compression round. -/
def round (st : St) (kw : Nat × Nat) : St :=
  let t1 := m32 (st.h + bigSigma1 st.e + ch st.e st.f st.g + kw.1 + kw.2)
  let t2 := m32 (bigSigma0 st.a + maj st.a st.b st.c)
  ⟨m32 (t1 + t2), st.a, st.b, st.c, m32 (st.d + t1), st.e, st.f, st.g⟩

/-- Message-schedule extension: `acc` is the reversed schedule so far. -/
def sched : Nat → List Nat → List Nat
  | 0, acc => acc
  | fuel + 1, acc =>
      sched fuel
        (m32 (smallSigma1 (acc.getD 1 0) + acc.getD 6 0 +
              smallSigma0 (acc.getD 14 0) + acc.getD 15 0) :: acc)

/-- Big-endian 4-byte groups to 32-bit words. -/
def bytesToWords : List Nat → List Nat
  | a :: b :: c :: d :: rest => (a * 16777216 + b * 65536 + c * 256 + d) :: bytesToWords rest
  | _ => []

/-- Compress one 64-byte block into the chaining state. -/
def compress (st : St) (block : List Nat) : St :=
  let w := (sched 48 (bytesToWords block).reverse).reverse
  let r := (K.zip w).foldl round st
  ⟨m32 (st.a + r.a), m32 (st.b + r.b), m32 (st.c + r.c), m32 (st.d + r.d),
   m32 (st.e + r.e), m32 (st.f + r.f), m32 (st.g + r.g), m32 (st.h + r.h)⟩

/-- Split into 64-byte blocks; `fuel` bounds the recursion (pass the length). -/
def splitBlocks : Nat → List Nat → List (List Nat)
  | 0, _ => []
  | _, [] => []
  | fuel + 1, l => l.take 64 :: splitBlocks fuel (l.drop 64)

/-- Big-endian 8-byte encoding. -/
def be8 (n : Nat) : List Nat :=
  [n >>> 56 % 256, n >>> 48 % 256, n >>> 40 % 256, n >>> 32 % 256,
   n >>> 24 % 256, n >>> 16 % 256, n >>> 8 % 256, n % 256]

/-- Big-endian 4-byte encoding. -/
def be4 (n : Nat) : List Nat := [n >>> 24 % 256, n >>> 16 % 256, n >>> 8 % 256, n % 256]

/-- SHA-256 padding: 0x80, zeros to 56 mod 64, then the bit length. -/
def pad (msg : List Nat) : List Nat :=
  msg ++ 128 :: List.replicate ((64 - (msg.length + 9) % 64) % 64) 0 ++ be8 (msg.length * 8)

/-- SHA-256 of a byte list (Go crypto/sha256), as a 32-byte list. -/
def sha256 (msg : List Nat) : List Nat :=
  let padded := pad msg
  let st := (splitBlocks padded.length padded).foldl compress H0
  be4 st.a ++ be4 st.b ++ be4 st.c ++ be4 st.d ++ be4 st.e ++ be4 st.f ++ be4 st.g ++ be4 st.h

/-- HMAC-SHA256 (Go crypto/hmac with a SHA-256 block size of 64 bytes). -/
def hmacSha256 (key msg : List Nat) : List Nat :=
  let k0 := if key.length > 64 then sha256 key else key
  let kp := k0 ++ List.replicate (64 - k0.length) 0
  sha256 ((kp.map (fun b => b ^^^ 92)) ++ sha256 ((kp.map (fun b => b ^^^ 54)) ++ msg))

theorem sha256_length (msg : List Nat) : (sha256 msg).length = 32 := by
  simp [sha256, be4]

theorem hmacSha256_length (key msg : List Nat) : (hmacSha256 key msg).length = 32 := by
  simp [hmacSha256, sha256_length]

/-- Character `k` of the base64url alphabet (Go encoding/base64 URLEncoding,
`A-Z a-z 0-9 - _`), as an ASCII byte. -/
def b64char (k : Nat) : Nat :=
  if k < 26 then 65 + k
  else if k < 52 then 71 + k
  else if k < 62 then k - 4
  else if k = 62 then 45 else 95

/-- Raw (unpadded) base64url encoding (Go base64.RawURLEncoding.EncodeToString). -/
def b64uEncode : List Nat → List Nat
  | [] => []
  | [b1] => [b64char (b1 / 4), b64char (b1 % 4 * 16)]
  | [b1, b2] => [b64char (b1 / 4), b64char (b1 % 4 * 16 + b2 / 16), b64char (b2 % 16 * 4)]
  | b1 :: b2 :: b3 :: rest =>
      b64char (b1 / 4) :: b64char (b1 % 4 * 16 + b2 / 16) ::
      b64char (b2 % 16 * 4 + b3 / 64) :: b64char (b3 % 64) :: b64uEncode rest

/-- Index of an ASCII byte in the base64url alphabet. -/
def b64inv (c : Nat) : Option Nat :=
  if 65 ≤ c ∧ c ≤ 90 then some (c - 65)
  else if 97 ≤ c ∧ c ≤ 122 then some (c - 71)
  else if 48 ≤ c ∧ c ≤ 57 then some (c + 4)
  else if c = 45 then some 62
  else if c = 95 then some 63
  else none

/-- Unpadded base64url decoding of a whitespace-free input: groups of four
characters yield three bytes; a tail of two or three yields one or two bytes
(Go's decoder is lenient about nonzero trailing bits, which this arithmetic
reproduces); a tail of one character is a corrupt-input error (`none`). -/
def b64uDecodeCore : List Nat → Option (List Nat)
  | [] => some []
  | [_] => none
  | [c1, c2] =>
      match b64inv c1, b64inv c2 with
      | some v1, some v2 => some [v1 * 4 + v2 / 16]
      | _, _ => none
  | [c1, c2, c3] =>
      match b64inv c1, b64inv c2, b64inv c3 with
      | some v1, some v2, some v3 => some [v1 * 4 + v2 / 16, v2 % 16 * 16 + v3 / 4]
      | _, _, _ => none
  | c1 :: c2 :: c3 :: c4 :: rest =>
      match b64inv c1, b64inv c2, b64inv c3, b64inv c4, b64uDecodeCore rest with
      | some v1, some v2, some v3, some v4, some bs =>
          some ((v1 * 4 + v2 / 16) :: (v2 % 16 * 16 + v3 / 4) :: (v3 % 4 * 64 + v4) :: bs)
      | _, _, _, _, _ => none

/-- Go base64.RawURLEncoding.DecodeString: newline characters are skipped,
then the character groups are decoded. -/
def b64uDecode (l : List Nat) : Option (List Nat) :=
  b64uDecodeCore (l.filter (fun c => c != 10 && c != 13))

theorem b64char_not_dot_nl (k : Nat) : b64char k ≠ 46 ∧ b64char k ≠ 10 ∧ b64char k ≠ 13 := by
  unfold b64char
  split <;> [skip; split] <;> [omega; omega; skip]
  split <;> [omega; split <;> omega]

theorem b64uEncode_not_dot_nl :
    ∀ l, ∀ c ∈ b64uEncode l, c ≠ 46 ∧ c ≠ 10 ∧ c ≠ 13 := by
  intro l
  induction l using b64uEncode.induct with
  | case1 => intro c hc; simp [b64uEncode] at hc
  | case2 b1 =>
    intro c hc
    simp [b64uEncode] at hc
    rcases hc with h | h <;> (subst h; exact b64char_not_dot_nl _)
  | case3 b1 b2 =>
    intro c hc
    simp [b64uEncode] at hc
    rcases hc with h | h | h <;> (subst h; exact b64char_not_dot_nl _)
  | case4 b1 b2 b3 rest ih =>
    intro c hc
    simp only [b64uEncode, List.mem_cons] at hc
    rcases hc with h | h | h | h | h
    · subst h; exact b64char_not_dot_nl _
    · subst h; exact b64char_not_dot_nl _
    · subst h; exact b64char_not_dot_nl _
    · subst h; exact b64char_not_dot_nl _
    · exact ih c h

theorem b64inv_b64char : ∀ k, k < 64 → b64inv (b64char k) = some k := by decide

theorem b64uDecodeCore_encode :
    ∀ l, (∀ b ∈ l, b < 256) → b64uDecodeCore (b64uEncode l) = some l := by
  intro l
  induction l using b64uEncode.induct with
  | case1 => intro _; simp [b64uEncode, b64uDecodeCore]
  | case2 b1 =>
    intro h
    have hb1 : b1 < 256 := h b1 (by simp)
    simp only [b64uEncode, b64uDecodeCore]
    rw [b64inv_b64char _ (by omega), b64inv_b64char _ (by omega)]
    simp only [Option.some.injEq, List.cons.injEq, and_true]
    omega
  | case3 b1 b2 =>
    intro h
    have hb1 : b1 < 256 := h b1 (by simp)
    have hb2 : b2 < 256 := h b2 (by simp)
    simp only [b64uEncode, b64uDecodeCore]
    rw [b64inv_b64char _ (by omega), b64inv_b64char _ (by omega),
        b64inv_b64char _ (by omega)]
    simp only [Option.some.injEq, List.cons.injEq, and_true]
    constructor <;> omega
  | case4 b1 b2 b3 rest ih =>
    intro h
    have hb1 : b1 < 256 := h b1 (by simp)
    have hb2 : b2 < 256 := h b2 (by simp)
    have hb3 : b3 < 256 := h b3 (by simp)
    have hrest : ∀ b ∈ rest, b < 256 := fun b hb => h b (by simp [hb])
    have hr := ih hrest
    show b64uDecodeCore
        (b64char (b1 / 4) :: b64char (b1 % 4 * 16 + b2 / 16) ::
         b64char (b2 % 16 * 4 + b3 / 64) :: b64char (b3 % 64) :: b64uEncode rest) =
      some (b1 :: b2 :: b3 :: rest)
    rw [b64uDecodeCore]
    rw [b64inv_b64char _ (by omega), b64inv_b64char _ (by omega),
        b64inv_b64char _ (by omega), b64inv_b64char _ (by omega), hr]
    simp only [Option.some.injEq, List.cons.injEq, and_true]
    refine ⟨by omega, by omega, by omega⟩

theorem b64uDecode_encode (l : List Nat) (h : ∀ b ∈ l, b < 256) :
    b64uDecode (b64uEncode l) = some l := by
  unfold b64uDecode
  rw [List.filter_eq_self.mpr, b64uDecodeCore_encode l h]
  intro c hc
  have := b64uEncode_not_dot_nl l c hc
  simp only [bne_iff_ne, ne_eq, Bool.and_eq_true, decide_eq_true_eq]
  exact ⟨this.2.1, this.2.2⟩

theorem b64uEncode_length (l : List Nat) :
    (b64uEncode l).length = l.length + (l.length + 2) / 3 := by
  induction l using b64uEncode.induct with
  | case1 => simp [b64uEncode]
  | case2 b1 => simp [b64uEncode]
  | case3 b1 b2 => simp [b64uEncode]
  | case4 b1 b2 b3 rest ih =>
    show (b64char (b1 / 4) :: b64char (b1 % 4 * 16 + b2 / 16) ::
         b64char (b2 % 16 * 4 + b3 / 64) :: b64char (b3 % 64) :: b64uEncode rest).length =
      (b1 :: b2 :: b3 :: rest).length + ((b1 :: b2 :: b3 :: rest).length + 2) / 3
    simp only [List.length_cons, ih]
    omega

end Crypto

namespace GoJson

/-- A Go dynamic (`any`) value as stored in a session map.  `vInt` is an
`int64`, `vFloat` a `float64`; Go type assertions distinguish the two, and
`encoding/json` decodes every JSON number as `float64`.  `vFloat` carries an
integer because the only floats this application ever produces are
JSON-decoded integers (non-integral JSON numbers are outside the model). -/
inductive GoValue where
  | vStr (s : List Nat)
  | vInt (n : Int)
  | vFloat (n : Int)
  | vBool (b : Bool)
  | vNull
deriving DecidableEq, Repr

/-- A `map[string]any` of session values, as an association list of
byte-string keys (Go iterates maps unordered, but `json.Marshal` sorts keys;
a strictly-sorted list is the canonical representative). -/
abbrev SessionValues : Type := List (List Nat × GoValue)

/-- How `json.Unmarshal` into `any` returns a marshalled value: numbers come
back as `float64`, everything else survives unchanged. -/
def GoValue.decoded : GoValue → GoValue
  | .vInt n => .vFloat n
  | v => v

def GoValue.isInt : GoValue → Bool
  | .vInt _ => true
  | _ => false

/-- Lowercase hex digit, as in Go's `\u00xx` escapes. -/
def hexDigit (n : Nat) : Nat := if n < 10 then 48 + n else 87 + n

/-- encoding/json's escaping of one byte of a string (default HTML-escaping
encoder): quote, backslash, `\n` `\r` `\t`, other control bytes as `\u00xx`,
and `<` `>` `&` as `<` `>` `&`; all other bytes pass through. -/
def escByte (b : Nat) : List Nat :=
  if b = 34 then [92, 34]
  else if b = 92 then [92, 92]
  else if b = 10 then [92, 110]
  else if b = 13 then [92, 114]
  else if b = 9 then [92, 116]
  else if b < 32 then [92, 117, 48, 48, hexDigit (b / 16), hexDigit (b % 16)]
  else if b = 60 then [92, 117, 48, 48, 51, 99]
  else if b = 62 then [92, 117, 48, 48, 51, 101]
  else if b = 38 then [92, 117, 48, 48, 50, 54]
  else [b]

/-- The escaped body of a JSON string literal. -/
def strBody (s : List Nat) : List Nat := s.foldr (fun b acc => escByte b ++ acc) []

/-- A JSON string literal. -/
def printString (s : List Nat) : List Nat := 34 :: strBody s ++ [34]

/-- Decimal digits of `n`, most significant first; the fuel argument bounds
the recursion (any fuel above `n` gives the digits). -/
def natDigitsAux : Nat → Nat → List Nat
  | 0, _ => []
  | fuel + 1, n => if n < 10 then [48 + n] else natDigitsAux fuel (n / 10) ++ [48 + n % 10]

def natDigits (n : Nat) : List Nat := natDigitsAux (n + 1) n

/-- Decimal bytes of an integer (Go marshals `int64` and integral `float64`
in this form). -/
def intBytes (n : Int) : List Nat :=
  if n < 0 then 45 :: natDigits (-n).toNat else natDigits n.toNat

def printValue : GoValue → List Nat
  | .vStr s => printString s
  | .vInt n => intBytes n
  | .vFloat n => intBytes n
  | .vBool true => bs "true"
  | .vBool false => bs "false"
  | .vNull => bs "null"

def printEntry (e : List Nat × GoValue) : List Nat := printString e.1 ++ 58 :: printValue e.2

/-- The bytes after the opening brace of a non-empty object. -/
def entriesBytes : List (List Nat × GoValue) → List Nat
  | [] => [125]
  | e :: rest =>
      printEntry e ++ (match rest with
        | [] => [125]
        | _ => 44 :: entriesBytes rest)

/-- `json.Marshal` of a session-values map (keys in list order; the list is
kept sorted as Go's marshaller sorts map keys). -/
def jsonMarshal (m : SessionValues) : List Nat :=
  match m with
  | [] => [123, 125]
  | _ => 123 :: entriesBytes m

def hexVal (c : Nat) : Option Nat :=
  if 48 ≤ c ∧ c ≤ 57 then some (c - 48)
  else if 97 ≤ c ∧ c ≤ 102 then some (c - 87)
  else if 65 ≤ c ∧ c ≤ 70 then some (c - 55)
  else none

/-- UTF-8 bytes of a code point (how Go materialises a `\uXXXX` escape). -/
def utf8Bytes (n : Nat) : List Nat :=
  if n < 128 then [n]
  else if n < 2048 then [192 + n / 64, 128 + n % 64]
  else if n < 65536 then [224 + n / 4096, 128 + n / 64 % 64, 128 + n % 64]
  else [240 + n / 262144, 128 + n / 4096 % 64, 128 + n / 64 % 64, 128 + n % 64]

/-- Body of a JSON string literal up to its closing quote; `acc` is the
reversed output so far.  Surrogate-pair `\u` escapes are outside the model
(the printer above never emits them). -/
def parseStrAux : List Nat → List Nat → Option (List Nat × List Nat)
  | [], _ => none
  | 34 :: r, acc => some (acc.reverse, r)
  | 92 :: 117 :: h1 :: h2 :: h3 :: h4 :: r, acc =>
      match hexVal h1, hexVal h2, hexVal h3, hexVal h4 with
      | some a, some b, some c, some d =>
          parseStrAux r ((utf8Bytes (a * 4096 + b * 256 + c * 16 + d)).reverse ++ acc)
      | _, _, _, _ => none
  | 92 :: e :: r, acc =>
      if e = 34 then parseStrAux r (34 :: acc)
      else if e = 92 then parseStrAux r (92 :: acc)
      else if e = 47 then parseStrAux r (47 :: acc)
      else if e = 110 then parseStrAux r (10 :: acc)
      else if e = 114 then parseStrAux r (13 :: acc)
      else if e = 116 then parseStrAux r (9 :: acc)
      else if e = 98 then parseStrAux r (8 :: acc)
      else if e = 102 then parseStrAux r (12 :: acc)
      else none
  | c :: r, acc => if c = 92 then none else parseStrAux r (c :: acc)

def isDigit (c : Nat) : Bool := 48 ≤ c && c ≤ 57

/-- Consume a run of decimal digits, folding them onto `acc`. -/
def parseDigitsAux : List Nat → Nat → Nat × List Nat
  | [], acc => (acc, [])
  | c :: r, acc => if isDigit c then parseDigitsAux r (acc * 10 + (c - 48)) else (acc, c :: r)

/-- Finish a number: a following `.` or exponent marks a non-integral JSON
number, which is outside the model (this code base never stores one). -/
def finishNum (p : Nat × List Nat) (neg : Bool) : Option (Int × List Nat) :=
  match p.2 with
  | 46 :: _ => none
  | 101 :: _ => none
  | 69 :: _ => none
  | rest => some (if neg then -(p.1 : Int) else (p.1 : Int), rest)

/-- The digits after a minus sign. -/
def parseNegNum : List Nat → Option (Int × List Nat)
  | [] => none
  | d :: r => if isDigit d then finishNum (parseDigitsAux (d :: r) 0) true else none

def parseNumber (l : List Nat) : Option (Int × List Nat) :=
  match l with
  | [] => none
  | c :: r =>
      if c = 45 then parseNegNum r
      else if isDigit c then finishNum (parseDigitsAux (c :: r) 0) false
      else none

/-- Consume an expected literal byte sequence. -/
def dropLit : List Nat → List Nat → Option (List Nat)
  | [], r => some r
  | _ :: _, [] => none
  | x :: xs, y :: ys => if y = x then dropLit xs ys else none

/-- One JSON value (into Go `any`: numbers become `float64`). -/
def parseValue (l : List Nat) : Option (GoValue × List Nat) :=
  match l with
  | [] => none
  | c :: r =>
      if c = 34 then (parseStrAux r []).map (fun p => (GoValue.vStr p.1, p.2))
      else if c = 116 then (dropLit (bs "rue") r).map (fun r2 => (GoValue.vBool true, r2))
      else if c = 102 then (dropLit (bs "alse") r).map (fun r2 => (GoValue.vBool false, r2))
      else if c = 110 then (dropLit (bs "ull") r).map (fun r2 => (GoValue.vNull, r2))
      else (parseNumber (c :: r)).map (fun p => (GoValue.vFloat p.1, p.2))

/-- The entries of a non-empty object, after its opening brace.  The fuel
bounds the recursion; each step consumes at least one byte. -/
def parseEntries : Nat → List Nat → Option (List (List Nat × GoValue) × List Nat)
  | 0, _ => none
  | fuel + 1, l =>
      match l with
      | 34 :: r =>
          match parseStrAux r [] with
          | none => none
          | some (k, r1) =>
              match r1 with
              | 58 :: r2 =>
                  match parseValue r2 with
                  | none => none
                  | some (v, r3) =>
                      match r3 with
                      | 44 :: r4 => (parseEntries fuel r4).map (fun p => ((k, v) :: p.1, p.2))
                      | 125 :: r4 => some ([(k, v)], r4)
                      | _ => none
              | _ => none
      | _ => none

/-- `json.Unmarshal` of a flat object into `map[string]any` (whitespace-free
input, as produced by the marshaller above). -/
def jsonUnmarshal (l : List Nat) : Option SessionValues :=
  match l with
  | 123 :: 125 :: r => if r = [] then some ([] : SessionValues) else none
  | 123 :: r =>
      match parseEntries r.length r with
      | some (m, []) => some m
      | _ => none
  | _ => none

/-- Go's UTF-8 validity test (unicode/utf8.Valid).  `json.Marshal` replaces
invalid UTF-8 with U+FFFD, so only valid strings round-trip in Go; the
byte-level model is faithful exactly on this domain. -/
def utf8Valid : List Nat → Bool
  | [] => true
  | b :: r =>
      if b < 128 then utf8Valid r
      else if 194 ≤ b ∧ b ≤ 223 then
        match r with
        | c1 :: r2 => if 128 ≤ c1 ∧ c1 ≤ 191 then utf8Valid r2 else false
        | _ => false
      else if b = 224 then
        match r with
        | c1 :: c2 :: r2 =>
            if (160 ≤ c1 ∧ c1 ≤ 191) ∧ (128 ≤ c2 ∧ c2 ≤ 191) then utf8Valid r2 else false
        | _ => false
      else if 225 ≤ b ∧ b ≤ 236 ∨ b = 238 ∨ b = 239 then
        match r with
        | c1 :: c2 :: r2 =>
            if (128 ≤ c1 ∧ c1 ≤ 191) ∧ (128 ≤ c2 ∧ c2 ≤ 191) then utf8Valid r2 else false
        | _ => false
      else if b = 237 then
        match r with
        | c1 :: c2 :: r2 =>
            if (128 ≤ c1 ∧ c1 ≤ 159) ∧ (128 ≤ c2 ∧ c2 ≤ 191) then utf8Valid r2 else false
        | _ => false
      else if b = 240 then
        match r with
        | c1 :: c2 :: c3 :: r2 =>
            if (144 ≤ c1 ∧ c1 ≤ 191) ∧ (128 ≤ c2 ∧ c2 ≤ 191) ∧ (128 ≤ c3 ∧ c3 ≤ 191) then
              utf8Valid r2 else false
        | _ => false
      else if 241 ≤ b ∧ b ≤ 243 then
        match r with
        | c1 :: c2 :: c3 :: r2 =>
            if (128 ≤ c1 ∧ c1 ≤ 191) ∧ (128 ≤ c2 ∧ c2 ≤ 191) ∧ (128 ≤ c3 ∧ c3 ≤ 191) then
              utf8Valid r2 else false
        | _ => false
      else if b = 244 then
        match r with
        | c1 :: c2 :: c3 :: r2 =>
            if (128 ≤ c1 ∧ c1 ≤ 143) ∧ (128 ≤ c2 ∧ c2 ≤ 191) ∧ (128 ≤ c3 ∧ c3 ≤ 191) then
              utf8Valid r2 else false
        | _ => false
      else false

theorem hexVal_hexDigit : ∀ x, x < 16 → hexVal (hexDigit x) = some x := by decide

theorem parseStrAux_cons_other {c : Nat} (h34 : c ≠ 34) (h92 : c ≠ 92) (r acc : List Nat) :
    parseStrAux (c :: r) acc = parseStrAux r (c :: acc) := by
  rw [parseStrAux.eq_def]
  split
  all_goals simp_all

theorem parseStrAux_u {h1 h2 h3 h4 a b c d : Nat}
    (ha : hexVal h1 = some a) (hb : hexVal h2 = some b)
    (hc : hexVal h3 = some c) (hd : hexVal h4 = some d) (r acc : List Nat) :
    parseStrAux (92 :: 117 :: h1 :: h2 :: h3 :: h4 :: r) acc =
      parseStrAux r ((utf8Bytes (a * 4096 + b * 256 + c * 16 + d)).reverse ++ acc) := by
  rw [parseStrAux, ha, hb, hc, hd]

theorem parseStrAux_strBody (s : List Nat) :
    ∀ t acc, parseStrAux (strBody s ++ 34 :: t) acc = some (acc.reverse ++ s, t) := by
  induction s with
  | nil => intro t acc; simp [strBody, parseStrAux]
  | cons b s ih =>
    intro t acc
    have hsb : strBody (b :: s) = escByte b ++ strBody s := rfl
    rw [hsb, List.append_assoc]
    by_cases h34 : b = 34
    · subst h34
      show parseStrAux (92 :: 34 :: (strBody s ++ 34 :: t)) acc = _
      rw [show parseStrAux (92 :: 34 :: (strBody s ++ 34 :: t)) acc =
            parseStrAux (strBody s ++ 34 :: t) (34 :: acc) from rfl, ih]
      simp
    by_cases h92 : b = 92
    · subst h92
      show parseStrAux (92 :: 92 :: (strBody s ++ 34 :: t)) acc = _
      rw [show parseStrAux (92 :: 92 :: (strBody s ++ 34 :: t)) acc =
            parseStrAux (strBody s ++ 34 :: t) (92 :: acc) from rfl, ih]
      simp
    by_cases h10 : b = 10
    · subst h10
      show parseStrAux (92 :: 110 :: (strBody s ++ 34 :: t)) acc = _
      rw [show parseStrAux (92 :: 110 :: (strBody s ++ 34 :: t)) acc =
            parseStrAux (strBody s ++ 34 :: t) (10 :: acc) from rfl, ih]
      simp
    by_cases h13 : b = 13
    · subst h13
      show parseStrAux (92 :: 114 :: (strBody s ++ 34 :: t)) acc = _
      rw [show parseStrAux (92 :: 114 :: (strBody s ++ 34 :: t)) acc =
            parseStrAux (strBody s ++ 34 :: t) (13 :: acc) from rfl, ih]
      simp
    by_cases h9 : b = 9
    · subst h9
      show parseStrAux (92 :: 116 :: (strBody s ++ 34 :: t)) acc = _
      rw [show parseStrAux (92 :: 116 :: (strBody s ++ 34 :: t)) acc =
            parseStrAux (strBody s ++ 34 :: t) (9 :: acc) from rfl, ih]
      simp
    by_cases hctl : b < 32
    · have hesc : escByte b = [92, 117, 48, 48, hexDigit (b / 16), hexDigit (b % 16)] := by
        unfold escByte
        rw [if_neg h34, if_neg h92, if_neg h10, if_neg h13, if_neg h9, if_pos hctl]
      rw [hesc]
      show parseStrAux
          (92 :: 117 :: 48 :: 48 :: hexDigit (b / 16) :: hexDigit (b % 16) ::
            (strBody s ++ 34 :: t)) acc = _
      rw [parseStrAux_u (show hexVal 48 = some 0 from rfl) (show hexVal 48 = some 0 from rfl)
            (hexVal_hexDigit (b / 16) (by omega)) (hexVal_hexDigit (b % 16) (by omega))]
      have hb : 0 * 4096 + 0 * 256 + b / 16 * 16 + b % 16 = b := by omega
      rw [hb, show utf8Bytes b = [b] by unfold utf8Bytes; rw [if_pos (by omega)]]
      rw [show ([b].reverse ++ acc) = b :: acc from rfl, ih]
      simp
    by_cases h60 : b = 60
    · subst h60
      show parseStrAux (92 :: 117 :: 48 :: 48 :: 51 :: 99 :: (strBody s ++ 34 :: t)) acc = _
      rw [parseStrAux_u (show hexVal 48 = some 0 from rfl) (show hexVal 48 = some 0 from rfl)
            (show hexVal 51 = some 3 from rfl) (show hexVal 99 = some 12 from rfl)]
      rw [show ((utf8Bytes (0 * 4096 + 0 * 256 + 3 * 16 + 12)).reverse ++ acc) = 60 :: acc
            from rfl, ih]
      simp
    by_cases h62 : b = 62
    · subst h62
      show parseStrAux (92 :: 117 :: 48 :: 48 :: 51 :: 101 :: (strBody s ++ 34 :: t)) acc = _
      rw [parseStrAux_u (show hexVal 48 = some 0 from rfl) (show hexVal 48 = some 0 from rfl)
            (show hexVal 51 = some 3 from rfl) (show hexVal 101 = some 14 from rfl)]
      rw [show ((utf8Bytes (0 * 4096 + 0 * 256 + 3 * 16 + 14)).reverse ++ acc) = 62 :: acc
            from rfl, ih]
      simp
    by_cases h38 : b = 38
    · subst h38
      show parseStrAux (92 :: 117 :: 48 :: 48 :: 50 :: 54 :: (strBody s ++ 34 :: t)) acc = _
      rw [parseStrAux_u (show hexVal 48 = some 0 from rfl) (show hexVal 48 = some 0 from rfl)
            (show hexVal 50 = some 2 from rfl) (show hexVal 54 = some 6 from rfl)]
      rw [show ((utf8Bytes (0 * 4096 + 0 * 256 + 2 * 16 + 6)).reverse ++ acc) = 38 :: acc
            from rfl, ih]
      simp
    · have hesc : escByte b = [b] := by
        unfold escByte
        rw [if_neg h34, if_neg h92, if_neg h10, if_neg h13, if_neg h9, if_neg hctl,
            if_neg h60, if_neg h62, if_neg h38]
      rw [hesc]
      rw [show ([b] ++ (strBody s ++ 34 :: t)) = b :: (strBody s ++ 34 :: t) from rfl]
      rw [parseStrAux_cons_other h34 h92, ih]
      simp

/-- Value of a digit run folded onto `acc`. -/
def digitsVal (ds : List Nat) (acc : Nat) : Nat := ds.foldl (fun a c => a * 10 + (c - 48)) acc

theorem parseDigitsAux_spec :
    ∀ ds rest acc, (∀ c ∈ ds, isDigit c = true) →
      (∀ c, rest.head? = some c → isDigit c = false) →
      parseDigitsAux (ds ++ rest) acc = (digitsVal ds acc, rest) := by
  intro ds
  induction ds with
  | nil =>
    intro rest acc _ hrest
    cases rest with
    | nil => simp [parseDigitsAux, digitsVal]
    | cons c r =>
      have hc := hrest c rfl
      simp [parseDigitsAux, digitsVal, hc]
  | cons d ds ih =>
    intro rest acc hds hrest
    have hd : isDigit d = true := hds d (by simp)
    rw [List.cons_append, parseDigitsAux, if_pos hd,
        ih rest _ (fun c hc => hds c (by simp [hc])) hrest]
    simp [digitsVal]

theorem natDigitsAux_digits :
    ∀ fuel n, n < fuel → ∀ c ∈ natDigitsAux fuel n, isDigit c = true := by
  intro fuel
  induction fuel with
  | zero => intro n hn; omega
  | succ fuel ih =>
    intro n _ c hc
    rw [natDigitsAux] at hc
    by_cases h10 : n < 10
    · rw [if_pos h10] at hc
      simp at hc
      simp [isDigit, hc]; omega
    · rw [if_neg h10] at hc
      simp only [List.mem_append, List.mem_singleton] at hc
      rcases hc with hc | hc
      · exact ih (n / 10) (by omega) c hc
      · simp [isDigit, hc]; omega

theorem natDigitsAux_val :
    ∀ fuel n, n < fuel → digitsVal (natDigitsAux fuel n) 0 = n := by
  intro fuel
  induction fuel with
  | zero => intro n hn; omega
  | succ fuel ih =>
    intro n hn
    rw [natDigitsAux]
    by_cases h10 : n < 10
    · rw [if_pos h10]; simp [digitsVal]
    · rw [if_neg h10]
      have : digitsVal (natDigitsAux fuel (n / 10) ++ [48 + n % 10]) 0 =
          digitsVal (natDigitsAux fuel (n / 10)) 0 * 10 + (48 + n % 10 - 48) := by
        simp [digitsVal, List.foldl_append]
      rw [this, ih (n / 10) (by omega)]
      omega

theorem natDigits_ne_nil (n : Nat) : natDigits n ≠ [] := by
  rw [natDigits, natDigitsAux]
  by_cases h10 : n < 10
  · rw [if_pos h10]; simp
  · rw [if_neg h10]; simp

/-- The byte after a printed integer must not extend the number token. -/
def numGuard : List Nat → Prop
  | [] => True
  | c :: _ => isDigit c = false ∧ c ≠ 46 ∧ c ≠ 101 ∧ c ≠ 69

theorem finishNum_guard (n : Nat) (rest : List Nat) (neg : Bool) (h : numGuard rest) :
    finishNum (n, rest) neg = some (if neg then -(n : Int) else (n : Int), rest) := by
  rw [finishNum.eq_def]
  cases rest with
  | nil => rfl
  | cons c r =>
    obtain ⟨_, h46, h101, h69⟩ := h
    split
    all_goals simp_all

theorem natDigits_digits (n : Nat) : ∀ c ∈ natDigits n, isDigit c = true :=
  natDigitsAux_digits (n + 1) n (by omega)

theorem natDigits_val (n : Nat) : digitsVal (natDigits n) 0 = n :=
  natDigitsAux_val (n + 1) n (by omega)

theorem parseNumber_intBytes (n : Int) (rest : List Nat) (h : numGuard rest) :
    parseNumber (intBytes n ++ rest) = some (n, rest) := by
  have hrest : ∀ c, rest.head? = some c → isDigit c = false := by
    intro c hc
    cases rest with
    | nil => simp at hc
    | cons d r => simp at hc; subst hc; exact h.1
  by_cases hn : n < 0
  · rw [intBytes, if_pos hn]
    obtain ⟨d, ds, hds⟩ : ∃ d ds, natDigits (-n).toNat = d :: ds := by
      cases hnd : natDigits (-n).toNat with
      | nil => exact absurd hnd (natDigits_ne_nil _)
      | cons d ds => exact ⟨d, ds, rfl⟩
    have hdig := natDigits_digits (-n).toNat
    have hd : isDigit d = true := hdig d (by rw [hds]; simp)
    rw [List.cons_append, parseNumber, if_pos rfl, hds, List.cons_append, parseNegNum,
        if_pos hd, ← List.cons_append, ← hds,
        parseDigitsAux_spec _ rest 0 hdig hrest, natDigits_val, finishNum_guard _ _ _ h]
    simp only [if_true]
    congr 2
    omega
  · rw [intBytes, if_neg hn]
    obtain ⟨d, ds, hds⟩ : ∃ d ds, natDigits n.toNat = d :: ds := by
      cases hnd : natDigits n.toNat with
      | nil => exact absurd hnd (natDigits_ne_nil _)
      | cons d ds => exact ⟨d, ds, rfl⟩
    have hdig := natDigits_digits n.toNat
    have hd : isDigit d = true := hdig d (by rw [hds]; simp)
    have hd48 : 48 ≤ d ∧ d ≤ 57 := by
      simpa [isDigit, Bool.and_eq_true, decide_eq_true_eq] using hd
    rw [hds, List.cons_append, parseNumber, if_neg (by omega), if_pos hd,
        ← List.cons_append, ← hds,
        parseDigitsAux_spec _ rest 0 hdig hrest, natDigits_val, finishNum_guard _ _ _ h]
    simp only [Bool.false_eq_true, if_false]
    congr 2
    omega

theorem parseValue_fallthrough {c : Nat} (h34 : c ≠ 34) (h116 : c ≠ 116) (h102 : c ≠ 102)
    (h110 : c ≠ 110) (r : List Nat) :
    parseValue (c :: r) =
      (parseNumber (c :: r)).map (fun p => (GoValue.vFloat p.1, p.2)) := by
  rw [parseValue]
  rw [if_neg h34, if_neg h116, if_neg h102, if_neg h110]

theorem parseValue_intBytes (n : Int) (rest : List Nat) (h : numGuard rest) :
    parseValue (intBytes n ++ rest) = some (GoValue.vFloat n, rest) := by
  obtain ⟨c, cs, hcs, hcrange⟩ :
      ∃ c cs, intBytes n ++ rest = c :: cs ∧ (c = 45 ∨ (48 ≤ c ∧ c ≤ 57)) := by
    rw [intBytes]
    by_cases hn : n < 0
    · rw [if_pos hn]; exact ⟨45, _, rfl, Or.inl rfl⟩
    · rw [if_neg hn]
      cases hnd : natDigits n.toNat with
      | nil => exact absurd hnd (natDigits_ne_nil _)
      | cons d ds =>
        refine ⟨d, ds ++ rest, rfl, Or.inr ?_⟩
        have hd : isDigit d = true := natDigits_digits n.toNat d (by rw [hnd]; simp)
        simpa [isDigit, Bool.and_eq_true, decide_eq_true_eq] using hd
  rw [hcs, parseValue_fallthrough (by omega) (by omega) (by omega) (by omega), ← hcs,
      parseNumber_intBytes n rest h]
  rfl

theorem parseValue_printValue (v : GoValue) (rest : List Nat) (h : numGuard rest) :
    parseValue (printValue v ++ rest) = some (v.decoded, rest) := by
  cases v with
  | vStr s =>
    show parseValue ((34 :: strBody s ++ [34]) ++ rest) = _
    rw [show ((34 :: strBody s ++ [34]) ++ rest) = 34 :: (strBody s ++ 34 :: rest) by simp]
    rw [parseValue, if_pos rfl, parseStrAux_strBody s rest []]
    rfl
  | vInt n => exact parseValue_intBytes n rest h
  | vFloat n => exact parseValue_intBytes n rest h
  | vBool b =>
    cases b with
    | true =>
      show parseValue (116 :: 114 :: 117 :: 101 :: rest) = some (GoValue.vBool true, rest)
      rfl
    | false =>
      show parseValue (102 :: 97 :: 108 :: 115 :: 101 :: rest) = some (GoValue.vBool false, rest)
      rfl
  | vNull =>
    show parseValue (110 :: 117 :: 108 :: 108 :: rest) = some (GoValue.vNull, rest)
    rfl

theorem parseEntries_entriesBytes :
    ∀ (m : List (List Nat × GoValue)) (fuel : Nat), m ≠ [] → m.length ≤ fuel →
      parseEntries fuel (entriesBytes m) = some (m.map (fun e => (e.1, e.2.decoded)), []) := by
  intro m
  induction m with
  | nil => intro fuel hne _; exact absurd rfl hne
  | cons e m ih =>
    intro fuel _ hlen
    have hf1 : 1 ≤ fuel := le_trans (by simp) hlen
    obtain ⟨f, rfl⟩ : ∃ f, fuel = f + 1 := ⟨fuel - 1, by omega⟩
    obtain ⟨k, v⟩ := e
    cases m with
    | nil =>
      have hb : entriesBytes [(k, v)] =
          34 :: (strBody k ++ 34 :: 58 :: (printValue v ++ [125])) := by
        simp [entriesBytes, printEntry, printString]
      rw [hb, parseEntries, parseStrAux_strBody k _ []]
      simp only [List.reverse_nil, List.nil_append]
      simp only [parseValue_printValue v [125] ⟨by decide, by decide, by decide, by decide⟩]
      rfl
    | cons e2 m2 =>
      have hb : entriesBytes ((k, v) :: e2 :: m2) =
          34 :: (strBody k ++ 34 :: 58 :: (printValue v ++ 44 :: entriesBytes (e2 :: m2))) := by
        simp [entriesBytes, printEntry, printString]
      rw [hb, parseEntries, parseStrAux_strBody k _ []]
      simp only [List.reverse_nil, List.nil_append]
      simp only [parseValue_printValue v (44 :: entriesBytes (e2 :: m2))
        ⟨by decide, by decide, by decide, by decide⟩]
      rw [show parseEntries f (entriesBytes (e2 :: m2)) =
            some ((e2 :: m2).map (fun e => (e.1, e.2.decoded)), []) from
          ih f (by simp) (by
            have h1 : ((k, v) :: e2 :: m2).length = m2.length + 2 := by simp
            have h2 : (e2 :: m2).length = m2.length + 1 := by simp
            rw [h1] at hlen; rw [h2]; omega)]
      rfl

theorem entriesBytes_length_ge :
    ∀ m : List (List Nat × GoValue), m.length ≤ (entriesBytes m).length := by
  intro m
  induction m with
  | nil => simp [entriesBytes]
  | cons e m ih =>
    cases m with
    | nil => simp [entriesBytes]
    | cons e2 m2 =>
      have : entriesBytes (e :: e2 :: m2) = printEntry e ++ 44 :: entriesBytes (e2 :: m2) := by
        rw [entriesBytes]
        simp
      rw [this]
      simp only [List.length_append, List.length_cons] at ih ⊢
      omega

/-- `json.Unmarshal ∘ json.Marshal` on a flat map of primitives: every entry
comes back with its key unchanged and its value as Go re-types it (numbers
turn into `float64`). -/
theorem jsonUnmarshal_jsonMarshal (m : SessionValues) :
    jsonUnmarshal (jsonMarshal m) = some (m.map (fun e => (e.1, e.2.decoded))) := by
  cases m with
  | nil => rfl
  | cons e m =>
    obtain ⟨k, v⟩ := e
    have hmar : jsonMarshal ((k, v) :: m) = 123 :: entriesBytes ((k, v) :: m) := by
      rw [jsonMarshal]
      simp
    obtain ⟨t, ht⟩ : ∃ t, entriesBytes ((k, v) :: m) = 34 :: t := by
      cases m with
      | nil =>
        exact ⟨strBody k ++ 34 :: 58 :: (printValue v ++ [125]),
          by simp [entriesBytes, printEntry, printString]⟩
      | cons e2 m2 =>
        exact ⟨strBody k ++ 34 :: 58 :: (printValue v ++ 44 :: entriesBytes (e2 :: m2)),
          by simp [entriesBytes, printEntry, printString]⟩
    rw [hmar, ht, jsonUnmarshal]
    · rw [← ht]
      rw [parseEntries_entriesBytes ((k, v) :: m) _ (by simp)
        (by simpa [ht] using entriesBytes_length_ge ((k, v) :: m))]
    · intro r hr
      simp at hr

/-- All bytes below 256. -/
def bytesWf (s : List Nat) : Prop := ∀ b ∈ s, b < 256

def ValueWf : GoValue → Prop
  | .vStr s => bytesWf s
  | _ => True

def ValuesWf (m : SessionValues) : Prop := ∀ e ∈ m, bytesWf e.1 ∧ ValueWf e.2

theorem hexDigit_lt (x : Nat) (hx : x < 16) : hexDigit x < 256 := by
  unfold hexDigit; split <;> omega

theorem escByte_wf {b : Nat} (hb : b < 256) : ∀ c ∈ escByte b, c < 256 := by
  intro c hc
  unfold escByte at hc
  split_ifs at hc with h1 h2 h3 h4 h5 h6 h7 h8 h9 <;>
    fin_cases hc <;> first | omega | exact hexDigit_lt _ (by omega)

theorem strBody_wf {s : List Nat} (hs : bytesWf s) : ∀ c ∈ strBody s, c < 256 := by
  induction s with
  | nil => intro c hc; simp [strBody] at hc
  | cons b s ih =>
    intro c hc
    have : strBody (b :: s) = escByte b ++ strBody s := rfl
    rw [this, List.mem_append] at hc
    rcases hc with hc | hc
    · exact escByte_wf (hs b (by simp)) c hc
    · exact ih (fun x hx => hs x (by simp [hx])) c hc

theorem printString_wf {s : List Nat} (hs : bytesWf s) : ∀ c ∈ printString s, c < 256 := by
  intro c hc
  rw [printString] at hc
  cases List.mem_cons.mp hc with
  | inl h => omega
  | inr h =>
    cases List.mem_append.mp h with
    | inl h2 => exact strBody_wf hs c h2
    | inr h2 =>
      have hc34 : c = 34 := by simpa using h2
      omega

theorem natDigits_wf (n : Nat) : ∀ c ∈ natDigits n, c < 256 := by
  intro c hc
  have := natDigits_digits n c hc
  simp only [isDigit, Bool.and_eq_true, decide_eq_true_eq] at this
  omega

theorem intBytes_wf (n : Int) : ∀ c ∈ intBytes n, c < 256 := by
  intro c hc
  rw [intBytes] at hc
  split_ifs at hc
  · simp only [List.mem_cons] at hc
    rcases hc with hc | hc
    · omega
    · exact natDigits_wf _ c hc
  · exact natDigits_wf _ c hc

theorem printValue_wf {v : GoValue} (hv : ValueWf v) : ∀ c ∈ printValue v, c < 256 := by
  intro c hc
  cases v with
  | vStr s => exact printString_wf hv c hc
  | vInt n => exact intBytes_wf n c hc
  | vFloat n => exact intBytes_wf n c hc
  | vBool b =>
    cases b with
    | true =>
      rw [show printValue (GoValue.vBool true) = [116, 114, 117, 101] from rfl] at hc
      simp at hc
      rcases hc with rfl | rfl | rfl | rfl <;> omega
    | false =>
      rw [show printValue (GoValue.vBool false) = [102, 97, 108, 115, 101] from rfl] at hc
      simp at hc
      rcases hc with rfl | rfl | rfl | rfl | rfl <;> omega
  | vNull =>
    rw [show printValue GoValue.vNull = [110, 117, 108, 108] from rfl] at hc
    simp at hc
    rcases hc with rfl | rfl | rfl <;> omega

theorem printEntry_wf {e : List Nat × GoValue} (hk : bytesWf e.1) (hv : ValueWf e.2) :
    ∀ c ∈ printEntry e, c < 256 := by
  intro c hc
  rw [printEntry, List.mem_append] at hc
  rcases hc with hc | hc
  · exact printString_wf hk c hc
  · simp only [List.mem_cons] at hc
    rcases hc with hc | hc
    · omega
    · exact printValue_wf hv c hc

theorem entriesBytes_wf :
    ∀ m : SessionValues, ValuesWf m → ∀ c ∈ entriesBytes m, c < 256 := by
  intro m
  induction m with
  | nil => intro _ c hc; simp [entriesBytes] at hc; omega
  | cons e m ih =>
    intro hwf c hc
    cases m with
    | nil =>
      have : entriesBytes [e] = printEntry e ++ [125] := by
        cases e; simp [entriesBytes]
      rw [this, List.mem_append] at hc
      rcases hc with hc | hc
      · exact printEntry_wf (hwf e (by simp)).1 (hwf e (by simp)).2 c hc
      · simp at hc; omega
    | cons e2 m2 =>
      have : entriesBytes (e :: e2 :: m2) = printEntry e ++ 44 :: entriesBytes (e2 :: m2) := by
        rw [entriesBytes]
        simp
      rw [this, List.mem_append] at hc
      rcases hc with hc | hc
      · exact printEntry_wf (hwf e (by simp)).1 (hwf e (by simp)).2 c hc
      · simp only [List.mem_cons] at hc
        rcases hc with hc | hc
        · omega
        · exact ih (fun x hx => hwf x (by simp [hx])) c hc

theorem jsonMarshal_wf {m : SessionValues} (hm : ValuesWf m) : ∀ c ∈ jsonMarshal m, c < 256 := by
  intro c hc
  cases m with
  | nil =>
    rw [show jsonMarshal [] = [123, 125] from rfl] at hc
    simp at hc
    rcases hc with rfl | rfl <;> omega
  | cons e m =>
    have : jsonMarshal (e :: m) = 123 :: entriesBytes (e :: m) := by
      rw [jsonMarshal]
      simp
    rw [this] at hc
    simp only [List.mem_cons] at hc
    rcases hc with hc | hc
    · omega
    · exact entriesBytes_wf (e :: m) hm c hc

end GoJson

namespace SessionStore

open GoJson Crypto

/-- Errors the store's decode can surface: `ErrInvalidSession` from the
structure or signature check, or the base64 / JSON error it passes through. -/
inductive GoError where
  | errInvalidSession
  | errBase64
  | errJson
deriving DecidableEq, Repr

/-- net/http SameSite cookie modes. -/
inductive SameSite where
  | defaultMode
  | laxMode
  | strictMode
  | noneMode
deriving DecidableEq, Repr

/-- Cookie options (session.Options). -/
structure Options where
  path : List Nat
  maxAge : Int
  httpOnly : Bool
  secure : Bool
  sameSite : SameSite
deriving DecidableEq, Repr

/-- A session: a values map plus cookie options (session.Session). -/
structure Session where
  Values : SessionValues
  Options : SessionStore.Options
deriving DecidableEq, Repr

/-- The options every session built by the store carries:
path "/", MaxAge 7 days, HttpOnly, not Secure, SameSite Lax. -/
def storeOptions : Options := ⟨bs "/", 604800, true, false, .laxMode⟩

/-- session.NewSession / the fresh session Get falls back to. -/
def freshSession : Session := ⟨[], storeOptions⟩

/-- CookieStore.sign: base64url(HMAC-SHA256(secret, data)). -/
def sign (secret data : List Nat) : List Nat := b64uEncode (hmacSha256 secret data)

/-- CookieStore.encode: signature ++ "." ++ base64url(json(values)). -/
def encode (secret : List Nat) (values : SessionValues) : List Nat :=
  let encoded := b64uEncode (jsonMarshal values)
  sign secret encoded ++ 46 :: encoded

/-- strings.SplitN(value, ".", 2): the part before the first dot and the rest;
`none` when there is no dot (one part only). -/
def splitFirstDot : List Nat → Option (List Nat × List Nat)
  | [] => none
  | c :: rest =>
      if c = 46 then some ([], rest)
      else (splitFirstDot rest).map (fun p => (c :: p.1, p.2))

/-- CookieStore.decode: split at the first dot, verify the HMAC over the
encoded part against the signature part, base64-decode, JSON-decode. -/
def decode (secret : List Nat) (value : List Nat) : Except GoError Session :=
  match splitFirstDot value with
  | none => .error .errInvalidSession
  | some (signature, encoded) =>
      if signature ≠ sign secret encoded then .error .errInvalidSession
      else
        match b64uDecode encoded with
        | none => .error .errBase64
        | some data =>
            match jsonUnmarshal data with
            | none => .error .errJson
            | some values => .ok ⟨values, storeOptions⟩

instance {ε α : Type} [DecidableEq ε] [DecidableEq α] : DecidableEq (Except ε α)
  | .error e1, .error e2 =>
      match decEq e1 e2 with
      | isTrue h => isTrue (h ▸ rfl)
      | isFalse h => isFalse (fun hh => h (by cases hh; rfl))
  | .error _, .ok _ => isFalse (fun h => Except.noConfusion h)
  | .ok _, .error _ => isFalse (fun h => Except.noConfusion h)
  | .ok a1, .ok a2 =>
      match decEq a1 a2 with
      | isTrue h => isTrue (h ▸ rfl)
      | isFalse h => isFalse (fun hh => h (by cases hh; rfl))

/-- CookieStore.Get: the cookie value if the request carried one; absent or
undecodable cookies yield a fresh session, never an error. -/
def Get (secret : List Nat) (cookie : Option (List Nat)) : Except GoError Session :=
  match cookie with
  | none => .ok freshSession
  | some v =>
      match decode secret v with
      | .error _ => .ok freshSession
      | .ok s => .ok s

/-- Session.GetString: the value under `key` if present and a string. -/
def lookupVal (m : SessionValues) (key : List Nat) : Option GoValue :=
  (m.find? (fun e => e.1 == key)).map (fun e => e.2)

def GetString (s : Session) (key : List Nat) : List Nat × Bool :=
  match lookupVal s.Values key with
  | some (.vStr v) => (v, true)
  | some _ => ([], false)
  | none => ([], false)

/-- Session.GetInt64: JSON decoding turns numbers into float64, so the
switch accepts float64 as well as int64/int. -/
def GetInt64 (s : Session) (key : List Nat) : Int × Bool :=
  match lookupVal s.Values key with
  | some (.vFloat n) => (n, true)
  | some (.vInt n) => (n, true)
  | some _ => (0, false)
  | none => (0, false)

/-- Session.IsExpired: missing or non-numeric expiry counts as expired;
otherwise expired iff `now > expiresAt` (Unix seconds). -/
def IsExpired (s : Session) (key : List Nat) (now : Int) : Bool :=
  let p := GetInt64 s key
  if p.2 then decide (now > p.1) else true

theorem sign_length (secret data : List Nat) : (sign secret data).length = 43 := by
  rw [sign, b64uEncode_length, hmacSha256_length]

theorem sign_not_dot (secret data : List Nat) : ∀ c ∈ sign secret data, c ≠ 46 :=
  fun c hc => (b64uEncode_not_dot_nl _ c hc).1

theorem splitFirstDot_append {xs : List Nat} (ys : List Nat) (h : ∀ c ∈ xs, c ≠ 46) :
    splitFirstDot (xs ++ 46 :: ys) = some (xs, ys) := by
  induction xs with
  | nil => simp [splitFirstDot]
  | cons x xs ih =>
    rw [List.cons_append, splitFirstDot, if_neg (h x (by simp)),
        ih (fun c hc => h c (by simp [hc]))]
    rfl

theorem splitFirstDot_none {xs : List Nat} (h : ∀ c ∈ xs, c ≠ 46) :
    splitFirstDot xs = none := by
  induction xs with
  | nil => rfl
  | cons x xs ih =>
    rw [splitFirstDot, if_neg (h x (by simp)), ih (fun c hc => h c (by simp [hc]))]
    rfl

theorem set_append_left (xs : List Nat) :
    ∀ (ys : List Nat) (i b : Nat), i < xs.length → (xs ++ ys).set i b = xs.set i b ++ ys := by
  induction xs with
  | nil => intro ys i b hi; simp at hi
  | cons x xs ih =>
    intro ys i b hi
    cases i with
    | zero => rfl
    | succ i =>
      simp only [List.cons_append, List.set_cons_succ]
      rw [ih ys i b (by simp at hi; omega)]

theorem set_append_right (xs : List Nat) :
    ∀ (ys : List Nat) (i b : Nat), xs.length ≤ i →
      (xs ++ ys).set i b = xs ++ ys.set (i - xs.length) b := by
  induction xs with
  | nil => intro ys i b _; simp
  | cons x xs ih =>
    intro ys i b hi
    cases i with
    | zero => simp at hi
    | succ i =>
      simp only [List.cons_append, List.set_cons_succ, List.length_cons]
      rw [ih ys i b (by simp at hi; omega)]
      have harith : i + 1 - (xs.length + 1) = i - xs.length := by omega
      rw [harith]

theorem getD_set_self (l : List Nat) : ∀ i b, i < l.length → (l.set i b).getD i 0 = b := by
  induction l with
  | nil => intro i b hi; simp at hi
  | cons x xs ih =>
    intro i b hi
    cases i with
    | zero => rfl
    | succ i =>
      simp only [List.set_cons_succ, List.getD_cons_succ]
      exact ih i b (by simp at hi; omega)

theorem set_ne_of_getD_ne {l : List Nat} {i b : Nat} (hi : i < l.length)
    (hne : b ≠ l.getD i 0) : l.set i b ≠ l := by
  intro heq
  apply hne
  rw [← getD_set_self l i b hi, heq]

/-- The base64url-encoded JSON payload of a cookie. -/
def payloadB64 (values : SessionValues) : List Nat := b64uEncode (jsonMarshal values)

theorem decode_nosplit {secret value : List Nat}
    (h : splitFirstDot value = none) :
    decode secret value = .error .errInvalidSession := by
  unfold decode
  rw [h]

theorem decode_badsig {secret value sig enc : List Nat}
    (hsplit : splitFirstDot value = some (sig, enc))
    (hne : sig ≠ sign secret enc) :
    decode secret value = .error .errInvalidSession := by
  unfold decode
  rw [hsplit]
  show (if sig ≠ sign secret enc then Except.error GoError.errInvalidSession
        else match b64uDecode enc with
          | none => Except.error GoError.errBase64
          | some data =>
              match jsonUnmarshal data with
              | none => Except.error GoError.errJson
              | some values => Except.ok (Session.mk values storeOptions)) =
      Except.error GoError.errInvalidSession
  rw [if_pos hne]

theorem decode_goodsig {secret value sig enc : List Nat}
    (hsplit : splitFirstDot value = some (sig, enc))
    (heq : sig = sign secret enc) :
    decode secret value =
      (match b64uDecode enc with
       | none => Except.error GoError.errBase64
       | some data =>
           match jsonUnmarshal data with
           | none => Except.error GoError.errJson
           | some values => Except.ok ⟨values, storeOptions⟩) := by
  unfold decode
  rw [hsplit]
  show (if sig ≠ sign secret enc then Except.error GoError.errInvalidSession
        else match b64uDecode enc with
          | none => Except.error GoError.errBase64
          | some data =>
              match jsonUnmarshal data with
              | none => Except.error GoError.errJson
              | some values => Except.ok (Session.mk values storeOptions)) = _
  rw [if_neg (by simp [heq])]

/-- Round trip through the store: decoding an encoded cookie always verifies
and returns the values as Go re-types them (numbers as float64). -/
theorem decode_encode (secret : List Nat) (values : SessionValues) (hwf : ValuesWf values) :
    decode secret (encode secret values) =
      .ok ⟨values.map (fun e => (e.1, e.2.decoded)), storeOptions⟩ := by
  have hsplit : splitFirstDot (encode secret values) =
      some (sign secret (payloadB64 values), payloadB64 values) :=
    splitFirstDot_append _ (sign_not_dot secret _)
  rw [decode_goodsig hsplit rfl]
  rw [show payloadB64 values = b64uEncode (jsonMarshal values) from rfl,
      b64uDecode_encode _ (jsonMarshal_wf hwf)]
  show (match jsonUnmarshal (jsonMarshal values) with
        | none => Except.error GoError.errJson
        | some vs => Except.ok (Session.mk vs storeOptions)) =
      Except.ok (Session.mk (values.map (fun e => (e.1, e.2.decoded))) storeOptions)
  rw [jsonUnmarshal_jsonMarshal]

theorem payloadB64_not_dot (values : SessionValues) : ∀ c ∈ payloadB64 values, c ≠ 46 :=
  fun c hc => (b64uEncode_not_dot_nl _ c hc).1

/-- Claim C1: altering exactly one byte of a validly encoded cookie makes
CookieStore.decode return ErrInvalidSession (decode is a total function, so
it cannot panic, and an error outcome never returns the tampered values).
Any alteration of the signature part, of the separating dot, or a dot written
into the signature part is rejected outright; an alteration inside the
base64 payload is rejected provided it does not forge the MAC, i.e. the
recomputed HMAC-SHA256 signature of the altered payload differs from the
original signature (`hforge` — freedom from single-byte second preimages of
HMAC-SHA256, the cryptographic assumption the scheme rests on, which no
theorem can discharge for all inputs; at any concrete input it is checked by
computing both MACs). -/
theorem decode_set_tamper (secret : List Nat) (values : SessionValues) (i b : Nat)
    (hi : i < (encode secret values).length)
    (hne : b ≠ (encode secret values).getD i 0)
    (hforge : ∀ j, i = 44 + j →
      sign secret ((payloadB64 values).set j b) ≠ sign secret (payloadB64 values)) :
    decode secret ((encode secret values).set i b) = .error .errInvalidSession := by
  have hcv : encode secret values = sign secret (payloadB64 values) ++ 46 :: payloadB64 values :=
    rfl
  have hsiglen : (sign secret (payloadB64 values)).length = 43 := sign_length secret _
  have hsignd := sign_not_dot secret (payloadB64 values)
  have hencd := payloadB64_not_dot values
  rcases lt_trichotomy i 43 with hlt | hieq | hgt
  · -- tampering inside the signature part
    rw [hcv, set_append_left _ _ _ _ (by omega)]
    by_cases hb46 : b = 46
    · subst hb46
      rw [List.set_eq_take_cons_drop _ (by omega), List.append_assoc]
      refine decode_badsig (splitFirstDot_append _
        (fun c hc => hsignd c (List.take_subset _ _ hc))) ?_
      intro hcontra
      have hlen := congrArg List.length hcontra
      rw [List.length_take, sign_length, sign_length] at hlen
      omega
    · refine decode_badsig (splitFirstDot_append _ ?_) ?_
      · intro c hc
        rcases List.mem_or_eq_of_mem_set hc with h | h
        · exact hsignd c h
        · exact h ▸ hb46
      · refine set_ne_of_getD_ne (by omega) ?_
        rw [hcv, List.getD_append _ _ _ _ (by omega)] at hne
        exact hne
  · -- tampering the dot itself
    have hb46 : b ≠ 46 := by
      rw [hcv, List.getD_append_right _ _ _ _ (by omega), hsiglen, hieq] at hne
      simpa using hne
    subst hieq
    rw [hcv, set_append_right _ _ _ _ (by omega), hsiglen]
    rw [show (43 : Nat) - 43 = 0 from rfl, List.set_cons_zero]
    refine decode_nosplit (splitFirstDot_none ?_)
    intro c hc
    rcases List.mem_append.mp hc with h | h
    · exact hsignd c h
    · rcases List.mem_cons.mp h with h2 | h2
      · exact h2 ▸ hb46
      · exact hencd c h2
  · -- tampering inside the payload part
    rw [hcv, set_append_right _ _ _ _ (by omega), hsiglen]
    rw [show i - 43 = (i - 44) + 1 by omega, List.set_cons_succ]
    exact decode_badsig (splitFirstDot_append _ hsignd)
      (fun hcontra => hforge (i - 44) (by omega) hcontra.symm)

/-- Witness for C1: secret "k", values {"a": "x"}, the separating dot
(index 43) overwritten with "A". -/
theorem decode_set_tamper_witness :
    decode (bs "k") ((encode (bs "k") [(bs "a", GoValue.vStr (bs "x"))]).set 43 65) =
      .error .errInvalidSession :=
  decode_set_tamper (bs "k") [(bs "a", GoValue.vStr (bs "x"))] 43 65
    (by decide) (by decide) (fun j hj => absurd hj (by omega))

/-- Byte-string lexicographic order (Go `<` on strings), used to state that
an association list is the canonical sorted representative of a map. -/
def bytesLt : List Nat → List Nat → Bool
  | [], [] => false
  | [], _ :: _ => true
  | _ :: _, [] => false
  | x :: xs, y :: ys => if x < y then true else if x = y then bytesLt xs ys else false

/-- Keys strictly increasing — the list is exactly how json.Marshal orders a
Go map's keys, so it canonically represents one `map[string]any`. -/
def SortedKeys (m : SessionValues) : Prop :=
  m.Pairwise (fun a b => bytesLt a.1 b.1 = true)

/-- No value of the map is a Go `int64`/`int`. -/
def NoIntValues (m : SessionValues) : Prop := ∀ e ∈ m, e.2.isInt = false

/-- A string value is valid UTF-8 (non-strings impose nothing). -/
def StrValUtf8 : GoValue → Prop
  | GoValue.vStr s => utf8Valid s = true
  | _ => True

/-- Keys and string values are valid UTF-8: the domain on which Go's
json.Marshal copies string bytes verbatim (invalid UTF-8 is replaced with
U+FFFD by Go and does not round-trip, so the byte-level model is only
faithful on this domain). -/
def Utf8Wf (m : SessionValues) : Prop :=
  ∀ e ∈ m, utf8Valid e.1 = true ∧ StrValUtf8 e.2

instance (s : List Nat) : Decidable (bytesWf s) :=
  inferInstanceAs (Decidable (∀ b ∈ s, b < 256))

instance (v : GoValue) : Decidable (ValueWf v) :=
  match v with
  | GoValue.vStr s => inferInstanceAs (Decidable (bytesWf s))
  | GoValue.vInt _ => isTrue trivial
  | GoValue.vFloat _ => isTrue trivial
  | GoValue.vBool _ => isTrue trivial
  | GoValue.vNull => isTrue trivial

instance (v : GoValue) : Decidable (StrValUtf8 v) :=
  match v with
  | GoValue.vStr s => inferInstanceAs (Decidable (utf8Valid s = true))
  | GoValue.vInt _ => isTrue trivial
  | GoValue.vFloat _ => isTrue trivial
  | GoValue.vBool _ => isTrue trivial
  | GoValue.vNull => isTrue trivial

instance (m : SessionValues) : Decidable (ValuesWf m) :=
  inferInstanceAs (Decidable (∀ e ∈ m, bytesWf e.1 ∧ ValueWf e.2))

instance (m : SessionValues) : Decidable (NoIntValues m) :=
  inferInstanceAs (Decidable (∀ e ∈ m, e.2.isInt = false))

instance (m : SessionValues) : Decidable (SortedKeys m) :=
  inferInstanceAs
    (Decidable (m.Pairwise (fun a b : List Nat × GoValue => bytesLt a.1 b.1 = true)))

instance (m : SessionValues) : Decidable (Utf8Wf m) :=
  inferInstanceAs (Decidable (∀ e ∈ m, utf8Valid e.1 = true ∧ StrValUtf8 e.2))

theorem map_decoded_eq {m : SessionValues} (h : NoIntValues m) :
    m.map (fun e => (e.1, e.2.decoded)) = m := by
  induction m with
  | nil => rfl
  | cons e m ih =>
    have he : e.2.isInt = false := h e (by simp)
    have hm : NoIntValues m := fun x hx => h x (by simp [hx])
    simp only [List.map_cons, ih hm, List.cons.injEq, and_true]
    obtain ⟨k, v⟩ := e
    cases v <;> simp_all [GoValue.isInt, GoValue.decoded]

/-- Claim C2 (amended): for every secret and every session-values map whose
values are strings, booleans, null, or (integral) floats — with valid-UTF-8,
sorted keys — decoding the encoded cookie returns exactly the original map.
A map holding an `int64` comes back with that value as a `float64` instead
(see the counterexample), so full `decode ∘ encode = id` fails on Go's
dynamic typing, not on the cryptography. -/
theorem decode_encode_primitive_roundtrip (secret : List Nat) (values : SessionValues)
    (hwf : ValuesWf values) (hutf8 : Utf8Wf values) (hsorted : SortedKeys values)
    (hnoint : NoIntValues values) :
    decode secret (encode secret values) = .ok ⟨values, storeOptions⟩ := by
  rw [decode_encode secret values hwf, map_decoded_eq hnoint]

/-- Witness for C2 (amended): a two-entry string-valued map round-trips. -/
theorem decode_encode_primitive_roundtrip_witness :
    decode (bs "s3cret") (encode (bs "s3cret")
        [(bs "name", GoValue.vStr (bs "alice")), (bs "user_id", GoValue.vStr (bs "u-1"))]) =
      .ok ⟨[(bs "name", GoValue.vStr (bs "alice")), (bs "user_id", GoValue.vStr (bs "u-1"))],
        storeOptions⟩ :=
  decode_encode_primitive_roundtrip (bs "s3cret") _
    (by decide) (by decide) (by decide) (by decide)

/-- Counterexample to C2 as stated: for secret "k" and the map {"a": int64 1},
decode of encode returns {"a": float64 1}, and Go's dynamic values
`int64(1)` and `float64(1)` are distinct, so decode(secret, encode(secret,
values)) ≠ values for this values map. -/
theorem decode_encode_int_counterexample :
    decode (bs "k") (encode (bs "k") [(bs "a", GoValue.vInt 1)]) =
      .ok ⟨[(bs "a", GoValue.vFloat 1)], storeOptions⟩ ∧
    ([(bs "a", GoValue.vFloat 1)] : SessionValues) ≠ [(bs "a", GoValue.vInt 1)] := by
  constructor
  · rw [decode_encode (bs "k") [(bs "a", GoValue.vInt 1)] (by decide)]
    rfl
  · decide

/-- Claim C7: CookieStore.Get never surfaces an error; when the cookie is
absent or fails to decode for any reason it returns the fresh session (empty
values map, default options). -/
theorem get_fail_open (secret : List Nat) (cookie : Option (List Nat)) :
    ∃ s, Get secret cookie = .ok s ∧
      ((cookie = none ∨ ∃ v e, cookie = some v ∧ decode secret v = .error e) →
        s = freshSession) := by
  cases cookie with
  | none => exact ⟨freshSession, rfl, fun _ => rfl⟩
  | some v =>
    cases hd : decode secret v with
    | error e =>
      refine ⟨freshSession, ?_, fun _ => rfl⟩
      show (match decode secret v with
            | Except.error _ => Except.ok freshSession
            | Except.ok s2 => Except.ok s2) = Except.ok freshSession
      rw [hd]
    | ok s =>
      refine ⟨s, ?_, ?_⟩
      · show (match decode secret v with
              | Except.error _ => Except.ok freshSession
              | Except.ok s2 => Except.ok s2) = Except.ok s
        rw [hd]
      · rintro (h | ⟨v2, e2, hv2, hd2⟩)
        · exact absurd h (by simp)
        · rw [show v2 = v by injection hv2 with h2; exact h2.symm, hd] at hd2
          exact absurd hd2 (by simp)

/-- Witness for C7: a two-byte garbage cookie (no dot) yields the fresh
session with no error. -/
theorem get_fail_open_witness :
    Get (bs "k") (some [64, 64]) = .ok freshSession := by
  obtain ⟨s, hok, himp⟩ := get_fail_open (bs "k") (some [64, 64])
  have hs : s = freshSession :=
    himp (Or.inr ⟨[64, 64], .errInvalidSession, rfl, by decide⟩)
  rw [← hs]
  exact hok

end SessionStore

namespace Usecase

open GoJson

/-- model.User. -/
structure User where
  id : List Nat
  email : List Nat
  name : List Nat
  imageURL : List Nat
  createdAt : Int
  updatedAt : Int
deriving DecidableEq, Repr

/-- model.GoogleAccount. -/
structure GoogleAccount where
  id : List Nat
  userID : List Nat
  provider : List Nat
  providerAccountID : List Nat
  accessToken : List Nat
  refreshToken : List Nat
  expiresAt : Option Int
  createdAt : Int
  updatedAt : Int
deriving DecidableEq, Repr

/-- model.GithubAccount. -/
structure GithubAccount where
  id : List Nat
  userID : List Nat
  provider : List Nat
  providerAccountID : List Nat
  accessToken : List Nat
  refreshToken : List Nat
  expiresAt : Option Int
  createdAt : Int
  updatedAt : Int
deriving DecidableEq, Repr

/-- oauth2.Token; `expiry = 0` models the zero time.Time (token.Expiry.IsZero). -/
structure OAuthToken where
  accessToken : List Nat
  refreshToken : List Nat
  expiry : Int
deriving DecidableEq, Repr

/-- auth.GoogleUserInfo (the fields the usecase reads). -/
structure GoogleUserInfo where
  id : List Nat
  email : List Nat
  verifiedEmail : Bool
  name : List Nat
  picture : List Nat
deriving DecidableEq, Repr

/-- auth.GithubUserInfo (the fields the usecase reads). -/
structure GithubUserInfo where
  id : Int
  login : List Nat
  name : List Nat
  email : List Nat
  avatarURL : List Nat
deriving DecidableEq, Repr

/-- The persistent store backing the User / GoogleAccount / GithubAccount
repositories, modelled as lists in insertion order.  The repository
operations below carry the interface semantics the usecase relies on:
find-by returns the stored record or not-found, create appends, update
replaces the record with the same primary id. -/
structure DB where
  users : List User
  googleAccounts : List GoogleAccount
  githubAccounts : List GithubAccount
deriving DecidableEq, Repr

def findUserByID (db : DB) (id : List Nat) : Option User :=
  db.users.find? (fun u => u.id == id)

def findUserByEmail (db : DB) (email : List Nat) : Option User :=
  db.users.find? (fun u => u.email == email)

def findGoogleByPAID (db : DB) (provider paid : List Nat) : Option GoogleAccount :=
  db.googleAccounts.find? (fun a => a.provider == provider && a.providerAccountID == paid)

def findGithubByPAID (db : DB) (provider paid : List Nat) : Option GithubAccount :=
  db.githubAccounts.find? (fun a => a.provider == provider && a.providerAccountID == paid)

def createUser (db : DB) (u : User) : DB := { db with users := db.users ++ [u] }

def updateUser (db : DB) (u : User) : DB :=
  { db with users := db.users.map (fun x => if x.id == u.id then u else x) }

def createGoogleAccount (db : DB) (a : GoogleAccount) : DB :=
  { db with googleAccounts := db.googleAccounts ++ [a] }

def updateGoogleAccount (db : DB) (a : GoogleAccount) : DB :=
  { db with googleAccounts := db.googleAccounts.map (fun x => if x.id == a.id then a else x) }

def createGithubAccount (db : DB) (a : GithubAccount) : DB :=
  { db with githubAccounts := db.githubAccounts ++ [a] }

def updateGithubAccount (db : DB) (a : GithubAccount) : DB :=
  { db with githubAccounts := db.githubAccounts.map (fun x => if x.id == a.id then a else x) }

inductive AuthErr where
  | unsupportedProvider
  | exchangeFailed
  | getUserInfoFailed
  | emailNotVerified
  | emailNotAvailable
  | userNotFound
deriving DecidableEq, Repr

/-- AuthUsecase.handleGoogleCallback.  `infoRes` is what
oauthConfig.GetGoogleUserInfo returned; `now` is time.Now(); `newUserID` /
`newAccountID` are the uuids generated on the create path. -/
def handleGoogleCallback (db : DB) (infoRes : Except AuthErr GoogleUserInfo)
    (token : OAuthToken) (now : Int) (newUserID newAccountID : List Nat) :
    Except AuthErr (User × DB) :=
  match infoRes with
  | .error _ => .error .getUserInfoFailed
  | .ok info =>
      if !info.verifiedEmail then .error .emailNotVerified
      else
        match findGoogleByPAID db (bs "google") info.id with
        | some googleAccount =>
            match findUserByID db googleAccount.userID with
            | none => .error .userNotFound
            | some user0 =>
                let domainUser :=
                  { user0 with name := info.name, imageURL := info.picture, updatedAt := now }
                let db1 := updateUser db domainUser
                let acct :=
                  { googleAccount with
                    accessToken := token.accessToken,
                    refreshToken :=
                      if token.refreshToken ≠ [] then token.refreshToken
                      else googleAccount.refreshToken,
                    expiresAt :=
                      if token.expiry ≠ 0 then some token.expiry else googleAccount.expiresAt,
                    updatedAt := now }
                .ok (domainUser, updateGoogleAccount db1 acct)
        | none =>
            let found := findUserByEmail db info.email
            let domainUser :=
              match found with
              | some u => u
              | none =>
                  { id := newUserID, email := info.email, name := info.name,
                    imageURL := info.picture, createdAt := now, updatedAt := now }
            let db1 :=
              match found with
              | some _ => db
              | none => createUser db domainUser
            let googleAccount : GoogleAccount :=
              { id := newAccountID, userID := domainUser.id, provider := bs "google",
                providerAccountID := info.id, accessToken := token.accessToken,
                refreshToken := token.refreshToken,
                expiresAt := if token.expiry ≠ 0 then some token.expiry else none,
                createdAt := now, updatedAt := now }
            .ok (domainUser, createGoogleAccount db1 googleAccount)

/-- AuthUsecase.handleGithubCallback; the provider account id is
fmt.Sprintf of the numeric GitHub id. -/
def handleGithubCallback (db : DB) (infoRes : Except AuthErr GithubUserInfo)
    (token : OAuthToken) (now : Int) (newUserID newAccountID : List Nat) :
    Except AuthErr (User × DB) :=
  match infoRes with
  | .error _ => .error .getUserInfoFailed
  | .ok info =>
      if info.email = [] then .error .emailNotAvailable
      else
        match findGithubByPAID db (bs "github") (intBytes info.id) with
        | some githubAccount =>
            match findUserByID db githubAccount.userID with
            | none => .error .userNotFound
            | some user0 =>
                let newName := if info.name = [] then info.login else info.name
                let domainUser :=
                  { user0 with name := newName, imageURL := info.avatarURL, updatedAt := now }
                let db1 := updateUser db domainUser
                let acct :=
                  { githubAccount with
                    accessToken := token.accessToken,
                    refreshToken :=
                      if token.refreshToken ≠ [] then token.refreshToken
                      else githubAccount.refreshToken,
                    expiresAt :=
                      if token.expiry ≠ 0 then some token.expiry else githubAccount.expiresAt,
                    updatedAt := now }
                .ok (domainUser, updateGithubAccount db1 acct)
        | none =>
            let found := findUserByEmail db info.email
            let userName := if info.name = [] then info.login else info.name
            let domainUser :=
              match found with
              | some u => u
              | none =>
                  { id := newUserID, email := info.email, name := userName,
                    imageURL := info.avatarURL, createdAt := now, updatedAt := now }
            let db1 :=
              match found with
              | some _ => db
              | none => createUser db domainUser
            let githubAccount : GithubAccount :=
              { id := newAccountID, userID := domainUser.id, provider := bs "github",
                providerAccountID := intBytes info.id, accessToken := token.accessToken,
                refreshToken := token.refreshToken,
                expiresAt := if token.expiry ≠ 0 then some token.expiry else none,
                createdAt := now, updatedAt := now }
            .ok (domainUser, createGithubAccount db1 githubAccount)

inductive ProviderType where
  | google
  | github
deriving DecidableEq, Repr

/-- AuthUsecase.GetAuthURL: the provider string is mapped to a ProviderType
with ProviderGoogle as the default, then the configured URL builder is
called.  `cfg` stands for oauthConfig.GetAuthURL. -/
def getAuthURL (cfg : ProviderType → List Nat → List Nat) (provider state : List Nat) :
    List Nat :=
  let ptype :=
    if provider == bs "google" then ProviderType.google
    else if provider == bs "github" then ProviderType.github
    else ProviderType.google
  cfg ptype state

/-- Result of AuthUsecase.HandleCallback together with whether the provider
gateway's Exchange was reached (profile fetches happen after Exchange
inside the per-provider helpers, so `exchangeCalled = false` implies no
gateway operation ran at all). -/
structure HandleCallbackTrace where
  result : Except AuthErr (User × DB)
  exchangeCalled : Bool
deriving DecidableEq, Repr

/-- AuthUsecase.HandleCallback: unsupported provider strings fail before any
exchange; otherwise the code is exchanged and the per-provider helper runs.
`exchangeRes`, `googleInfoRes`, `githubInfoRes` model the provider gateway's
responses. -/
def handleCallback (db : DB) (provider : List Nat)
    (exchangeRes : ProviderType → Except AuthErr OAuthToken)
    (googleInfoRes : Except AuthErr GoogleUserInfo)
    (githubInfoRes : Except AuthErr GithubUserInfo)
    (now : Int) (newUserID newAccountID : List Nat) : HandleCallbackTrace :=
  let ptype : Option ProviderType :=
    if provider == bs "google" then some ProviderType.google
    else if provider == bs "github" then some ProviderType.github
    else none
  match ptype with
  | none => ⟨.error .unsupportedProvider, false⟩
  | some pt =>
      match exchangeRes pt with
      | .error _ => ⟨.error .exchangeFailed, true⟩
      | .ok token =>
          match pt with
          | .google =>
              ⟨handleGoogleCallback db googleInfoRes token now newUserID newAccountID, true⟩
          | .github =>
              ⟨handleGithubCallback db githubInfoRes token now newUserID newAccountID, true⟩

/-- AuthUsecase.CreateSession: copies the identity fields and stamps
now + expiresIn as the expiry. -/
structure ModelSession where
  userID : List Nat
  email : List Nat
  name : List Nat
  picture : List Nat
  expiresAt : Int
deriving DecidableEq, Repr

def createSession (user : User) (expiresIn now : Int) : ModelSession :=
  ⟨user.id, user.email, user.name, user.imageURL, now + expiresIn⟩

/-- Claim C10: for any provider string other than "google" and "github",
GetAuthURL silently falls back to the Google authorization URL (it cannot
fail), while HandleCallback with the same provider string fails with the
unsupported-provider error before any token exchange or profile fetch. -/
theorem getAuthURL_fallback_handleCallback_rejects
    (cfg : ProviderType → List Nat → List Nat) (db : DB) (provider state : List Nat)
    (exchangeRes : ProviderType → Except AuthErr OAuthToken)
    (googleInfoRes : Except AuthErr GoogleUserInfo)
    (githubInfoRes : Except AuthErr GithubUserInfo)
    (now : Int) (newUserID newAccountID : List Nat)
    (hg : provider ≠ bs "google") (hh : provider ≠ bs "github") :
    getAuthURL cfg provider state = cfg ProviderType.google state ∧
    handleCallback db provider exchangeRes googleInfoRes githubInfoRes now
        newUserID newAccountID =
      ⟨.error .unsupportedProvider, false⟩ := by
  have hgb : (provider == bs "google") = false := by
    simp only [beq_eq_false_iff_ne, ne_eq]
    exact hg
  have hhb : (provider == bs "github") = false := by
    simp only [beq_eq_false_iff_ne, ne_eq]
    exact hh
  constructor
  · rw [getAuthURL]
    simp only [hgb, hhb, Bool.false_eq_true, if_false]
  · rw [handleCallback]
    simp only [hgb, hhb, Bool.false_eq_true, if_false]

/-- Witness for C10 at provider "twitter". -/
theorem getAuthURL_fallback_witness :
    getAuthURL (fun p s => if p = ProviderType.google then 71 :: s else 72 :: s)
        (bs "twitter") (bs "st") =
      (fun p s => if p = ProviderType.google then 71 :: s else 72 :: s)
        ProviderType.google (bs "st") ∧
    handleCallback ⟨[], [], []⟩ (bs "twitter") (fun _ => .error .exchangeFailed)
        (.error .getUserInfoFailed) (.error .getUserInfoFailed) 0 [] [] =
      ⟨.error .unsupportedProvider, false⟩ :=
  getAuthURL_fallback_handleCallback_rejects _ ⟨[], [], []⟩ (bs "twitter") (bs "st")
    (fun _ => .error .exchangeFailed) (.error .getUserInfoFailed) (.error .getUserInfoFailed)
    0 [] [] (by decide) (by decide)

/-- Replacing (by `r`) every hit with a record `b` that still satisfies the
query `q` keeps the query answering `some b`, provided the record the query
used to find satisfies `r`.  This is how an update keyed on the primary id
preserves a find-by-secondary-key. -/
theorem find?_map_replace {α : Type} (l : List α) (q r : α → Bool) (a b : α)
    (hq : l.find? q = some a) (hra : r a = true) (hqb : q b = true) :
    (l.map (fun x => if r x then b else x)).find? q = some b := by
  induction l with
  | nil => simp [List.find?] at hq
  | cons x l ih =>
    rw [List.map_cons]
    by_cases hrx : r x = true
    · rw [if_pos hrx, List.find?_cons_of_pos _ hqb]
    · rw [if_neg (by simpa using hrx)]
      by_cases hqx : q x = true
      · rw [List.find?_cons_of_pos _ hqx] at hq
        injection hq with hq
        exact absurd (hq ▸ hra) hrx
      · rw [List.find?_cons_of_neg _ (by simpa using hqx)] at hq
        rw [List.find?_cons_of_neg _ (by simpa using hqx)]
        exact ih hq

/-- Appending a matching record to a list where the query failed makes the
query find exactly that record. -/
theorem find?_append_singleton {α : Type} (l : List α) (q : α → Bool) (b : α)
    (hl : l.find? q = none) (hb : q b = true) : (l ++ [b]).find? q = some b := by
  rw [List.find?_append, hl, List.find?_cons_of_pos _ hb]
  rfl

theorem find?_append_isSome {α : Type} (l : List α) (b : α) (q : α → Bool)
    (hb : q b = true) : ((l ++ [b]).find? q).isSome := by
  rw [List.find?_isSome]
  exact ⟨b, by simp, hb⟩

/-- After a successful Google callback the state contains a google account
for (google, info.id) whose owner resolves, and at most one user and one
google account were created; github accounts are untouched. -/
theorem handleGoogle_shape (db : DB) (info : GoogleUserInfo) (token : OAuthToken)
    (now : Int) (uid aid : List Nat) (u1 : User) (db1 : DB)
    (h : handleGoogleCallback db (.ok info) token now uid aid = .ok (u1, db1)) :
    (∃ acct2, findGoogleByPAID db1 (bs "google") info.id = some acct2 ∧
      ∃ w, findUserByID db1 acct2.userID = some w) ∧
    info.verifiedEmail = true ∧
    db1.users.length ≤ db.users.length + 1 ∧
    db1.googleAccounts.length ≤ db.googleAccounts.length + 1 := by
  by_cases hv : info.verifiedEmail = true
  swap
  · rw [show handleGoogleCallback db (.ok info) token now uid aid =
        (if !info.verifiedEmail then Except.error AuthErr.emailNotVerified else _) from rfl,
      if_pos (by simp [Bool.eq_false_iff.mpr hv])] at h
    exact absurd h (by simp)
  cases hfind : findGoogleByPAID db (bs "google") info.id with
  | some acct =>
    cases huser : findUserByID db acct.userID with
    | none =>
      simp [handleGoogleCallback, hv, hfind, huser] at h
    | some user0 =>
      simp only [handleGoogleCallback, hv, Bool.not_true, Bool.false_eq_true, if_false,
        hfind, huser, Except.ok.injEq, Prod.mk.injEq] at h
      obtain ⟨hu1, hdb1⟩ := h
      subst hdb1
      have hqacct := List.find?_some (p := fun a : GoogleAccount =>
        a.provider == bs "google" && a.providerAccountID == info.id) hfind
      have hquser := List.find?_some (p := fun x : User => x.id == acct.userID) huser
      refine ⟨?_, hv, ?_, ?_⟩
      · exact ⟨_, find?_map_replace _ _ _ acct _ hfind (by simp) hqacct,
          _, find?_map_replace _ _ _ user0 _ huser (by simp) hquser⟩
      · simp [updateGoogleAccount, updateUser]
      · simp [updateGoogleAccount, updateUser]
  | none =>
    cases hemail : findUserByEmail db info.email with
    | some u =>
      simp only [handleGoogleCallback, hv, Bool.not_true, Bool.false_eq_true, if_false,
        hfind, hemail, Except.ok.injEq, Prod.mk.injEq] at h
      obtain ⟨hu1, hdb1⟩ := h
      subst hdb1
      refine ⟨?_, hv, ?_, ?_⟩
      · have hmem : u ∈ db.users := List.mem_of_find?_eq_some hemail
        have hsome : (db.users.find? (fun x : User => x.id == u.id)).isSome := by
          rw [List.find?_isSome]
          exact ⟨u, hmem, by simp⟩
        obtain ⟨w, hw⟩ := Option.isSome_iff_exists.mp hsome
        exact ⟨_, find?_append_singleton _ _ _ hfind (by simp), w, hw⟩
      · simp [createGoogleAccount]
      · simp [createGoogleAccount]
    | none =>
      simp only [handleGoogleCallback, hv, Bool.not_true, Bool.false_eq_true, if_false,
        hfind, hemail, Except.ok.injEq, Prod.mk.injEq] at h
      obtain ⟨hu1, hdb1⟩ := h
      subst hdb1
      refine ⟨?_, hv, ?_, ?_⟩
      · obtain ⟨w, hw⟩ := Option.isSome_iff_exists.mp
          (find?_append_isSome db.users
            { id := uid, email := info.email, name := info.name, imageURL := info.picture,
              createdAt := now, updatedAt := now }
            (fun x : User => x.id == uid) (by simp))
        exact ⟨_, find?_append_singleton _ _ _ hfind (by simp), w, hw⟩
      · simp [createGoogleAccount, createUser]
      · simp [createGoogleAccount, createUser]

/-- When the (provider, externalId) lookup succeeds and the owning user
resolves, the Google callback takes the update path: it succeeds and
creates neither a user nor an account. -/
theorem handleGoogle_update_path (db : DB) (info : GoogleUserInfo) (token : OAuthToken)
    (now : Int) (uid aid : List Nat) (acct : GoogleAccount) (w : User)
    (hv : info.verifiedEmail = true)
    (hfind : findGoogleByPAID db (bs "google") info.id = some acct)
    (huser : findUserByID db acct.userID = some w) :
    ∃ u2 db2, handleGoogleCallback db (.ok info) token now uid aid = .ok (u2, db2) ∧
      db2.users.length = db.users.length ∧
      db2.googleAccounts.length = db.googleAccounts.length := by
  cases hres : handleGoogleCallback db (.ok info) token now uid aid with
  | error e =>
    simp [handleGoogleCallback, hv, hfind, huser] at hres
  | ok p =>
    obtain ⟨u2, db2⟩ := p
    refine ⟨u2, db2, rfl, ?_, ?_⟩ <;>
    · simp only [handleGoogleCallback, hv, Bool.not_true, Bool.false_eq_true, if_false,
        hfind, huser, Except.ok.injEq, Prod.mk.injEq] at hres
      obtain ⟨hu2, hdb2⟩ := hres
      subst hdb2
      simp [updateGoogleAccount, updateUser]

/-- GitHub version of `handleGoogle_shape`. -/
theorem handleGithub_shape (db : DB) (info : GithubUserInfo) (token : OAuthToken)
    (now : Int) (uid aid : List Nat) (u1 : User) (db1 : DB)
    (h : handleGithubCallback db (.ok info) token now uid aid = .ok (u1, db1)) :
    (∃ acct2, findGithubByPAID db1 (bs "github") (intBytes info.id) = some acct2 ∧
      ∃ w, findUserByID db1 acct2.userID = some w) ∧
    info.email ≠ [] ∧
    db1.users.length ≤ db.users.length + 1 ∧
    db1.githubAccounts.length ≤ db.githubAccounts.length + 1 := by
  by_cases hv : info.email = []
  · rw [show handleGithubCallback db (.ok info) token now uid aid =
        (if info.email = [] then Except.error AuthErr.emailNotAvailable else _) from rfl,
      if_pos hv] at h
    exact absurd h (by simp)
  cases hfind : findGithubByPAID db (bs "github") (intBytes info.id) with
  | some acct =>
    cases huser : findUserByID db acct.userID with
    | none =>
      simp [handleGithubCallback, hv, hfind, huser] at h
    | some user0 =>
      simp only [handleGithubCallback, hv, if_false, hfind, huser, Except.ok.injEq,
        Prod.mk.injEq] at h
      obtain ⟨hu1, hdb1⟩ := h
      subst hdb1
      have hqacct := List.find?_some (p := fun a : GithubAccount =>
        a.provider == bs "github" && a.providerAccountID == intBytes info.id) hfind
      have hquser := List.find?_some (p := fun x : User => x.id == acct.userID) huser
      refine ⟨?_, hv, ?_, ?_⟩
      · exact ⟨_, find?_map_replace _ _ _ acct _ hfind (by simp) hqacct,
          _, find?_map_replace _ _ _ user0 _ huser (by simp) hquser⟩
      · simp [updateGithubAccount, updateUser]
      · simp [updateGithubAccount, updateUser]
  | none =>
    cases hemail : findUserByEmail db info.email with
    | some u =>
      simp only [handleGithubCallback, hv, if_false, hfind, hemail, Except.ok.injEq,
        Prod.mk.injEq] at h
      obtain ⟨hu1, hdb1⟩ := h
      subst hdb1
      refine ⟨?_, hv, ?_, ?_⟩
      · have hmem : u ∈ db.users := List.mem_of_find?_eq_some hemail
        have hsome : (db.users.find? (fun x : User => x.id == u.id)).isSome := by
          rw [List.find?_isSome]
          exact ⟨u, hmem, by simp⟩
        obtain ⟨w, hw⟩ := Option.isSome_iff_exists.mp hsome
        exact ⟨_, find?_append_singleton _ _ _ hfind (by simp), w, hw⟩
      · simp [createGithubAccount]
      · simp [createGithubAccount]
    | none =>
      simp only [handleGithubCallback, hv, if_false, hfind, hemail, Except.ok.injEq,
        Prod.mk.injEq] at h
      obtain ⟨hu1, hdb1⟩ := h
      subst hdb1
      refine ⟨?_, hv, ?_, ?_⟩
      · obtain ⟨w, hw⟩ := Option.isSome_iff_exists.mp
          (find?_append_isSome db.users
            { id := uid, email := info.email,
              name := if info.name = [] then info.login else info.name,
              imageURL := info.avatarURL, createdAt := now, updatedAt := now }
            (fun x : User => x.id == uid) (by simp))
        exact ⟨_, find?_append_singleton _ _ _ hfind (by simp), w, hw⟩
      · simp [createGithubAccount, createUser]
      · simp [createGithubAccount, createUser]

/-- GitHub version of `handleGoogle_update_path`. -/
theorem handleGithub_update_path (db : DB) (info : GithubUserInfo) (token : OAuthToken)
    (now : Int) (uid aid : List Nat) (acct : GithubAccount) (w : User)
    (hv : info.email ≠ [])
    (hfind : findGithubByPAID db (bs "github") (intBytes info.id) = some acct)
    (huser : findUserByID db acct.userID = some w) :
    ∃ u2 db2, handleGithubCallback db (.ok info) token now uid aid = .ok (u2, db2) ∧
      db2.users.length = db.users.length ∧
      db2.githubAccounts.length = db.githubAccounts.length := by
  cases hres : handleGithubCallback db (.ok info) token now uid aid with
  | error e =>
    simp [handleGithubCallback, hv, hfind, huser] at hres
  | ok p =>
    obtain ⟨u2, db2⟩ := p
    refine ⟨u2, db2, rfl, ?_, ?_⟩ <;>
    · simp only [handleGithubCallback, hv, if_false, hfind, huser, Except.ok.injEq,
        Prod.mk.injEq] at hres
      obtain ⟨hu2, hdb2⟩ := hres
      subst hdb2
      simp [updateGithubAccount, updateUser]

/-- Claim C3: processing the same OAuth callback twice — same provider, same
provider-assigned external account id — creates at most one User and at most
one external-account row in total: the first run may create (at most one of
each), and the second run finds the account by (provider, externalId),
takes the update path, succeeds, and changes no table size. -/
theorem callback_twice_idempotent
    (db : DB) (ginfo : GoogleUserInfo) (hinfo : GithubUserInfo)
    (tok1 tok2 : OAuthToken) (now1 now2 : Int)
    (uid1 aid1 uid2 aid2 : List Nat)
    (u1 : User) (db1 : DB) (v1 : User) (dc1 : DB) :
    (handleGoogleCallback db (.ok ginfo) tok1 now1 uid1 aid1 = .ok (u1, db1) →
      ∃ u2 db2, handleGoogleCallback db1 (.ok ginfo) tok2 now2 uid2 aid2 = .ok (u2, db2) ∧
        db2.users.length = db1.users.length ∧
        db2.googleAccounts.length = db1.googleAccounts.length ∧
        db1.users.length ≤ db.users.length + 1 ∧
        db1.googleAccounts.length ≤ db.googleAccounts.length + 1) ∧
    (handleGithubCallback db (.ok hinfo) tok1 now1 uid1 aid1 = .ok (v1, dc1) →
      ∃ v2 dc2, handleGithubCallback dc1 (.ok hinfo) tok2 now2 uid2 aid2 = .ok (v2, dc2) ∧
        dc2.users.length = dc1.users.length ∧
        dc2.githubAccounts.length = dc1.githubAccounts.length ∧
        dc1.users.length ≤ db.users.length + 1 ∧
        dc1.githubAccounts.length ≤ db.githubAccounts.length + 1) := by
  constructor
  · intro h
    obtain ⟨⟨acct2, hfind2, w, hw⟩, hv, hl1, hl2⟩ :=
      handleGoogle_shape db ginfo tok1 now1 uid1 aid1 u1 db1 h
    obtain ⟨u2, db2, hrun2, he1, he2⟩ :=
      handleGoogle_update_path db1 ginfo tok2 now2 uid2 aid2 acct2 w hv hfind2 hw
    exact ⟨u2, db2, hrun2, he1, he2, hl1, hl2⟩
  · intro h
    obtain ⟨⟨acct2, hfind2, w, hw⟩, hv, hl1, hl2⟩ :=
      handleGithub_shape db hinfo tok1 now1 uid1 aid1 v1 dc1 h
    obtain ⟨v2, dc2, hrun2, he1, he2⟩ :=
      handleGithub_update_path dc1 hinfo tok2 now2 uid2 aid2 acct2 w hv hfind2 hw
    exact ⟨v2, dc2, hrun2, he1, he2, hl1, hl2⟩

/-- Witness for C3: a first-ever Google login against an empty store followed
by the identical callback again. -/
theorem callback_twice_idempotent_witness :
    ∃ u2 db2,
      handleGoogleCallback
          ⟨[⟨bs "u1", bs "a@x.com", bs "Alice", bs "pic", 0, 0⟩],
           [⟨bs "a1", bs "u1", bs "google", bs "g-1", bs "at", bs "rt", some 5, 0, 0⟩], []⟩
          (.ok ⟨bs "g-1", bs "a@x.com", true, bs "Alice", bs "pic"⟩)
          ⟨bs "at", bs "rt", 5⟩ 1 (bs "u2") (bs "a2") = .ok (u2, db2) ∧
      db2.users.length = 1 ∧
      db2.googleAccounts.length = 1 ∧
      (1 : Nat) ≤ 0 + 1 ∧
      (1 : Nat) ≤ 0 + 1 :=
  (callback_twice_idempotent ⟨[], [], []⟩
      ⟨bs "g-1", bs "a@x.com", true, bs "Alice", bs "pic"⟩
      ⟨1, bs "gh", bs "GH", bs "b@x.com", bs "av"⟩
      ⟨bs "at", bs "rt", 5⟩ ⟨bs "at", bs "rt", 5⟩ 0 1
      (bs "u1") (bs "a1") (bs "u2") (bs "a2")
      ⟨bs "u1", bs "a@x.com", bs "Alice", bs "pic", 0, 0⟩
      ⟨[⟨bs "u1", bs "a@x.com", bs "Alice", bs "pic", 0, 0⟩],
       [⟨bs "a1", bs "u1", bs "google", bs "g-1", bs "at", bs "rt", some 5, 0, 0⟩], []⟩
      ⟨bs "gh", bs "b@x.com", bs "GH", bs "av", 0, 0⟩ ⟨[], [], []⟩).1
    (by decide)

/-- Claim C4: when a User with the presented verified email already exists
and no external account exists yet for (provider, externalId), the callback
attaches a new external account to that existing User: the user table is
returned unchanged (no second User), the other provider's account table is
untouched (so an existing link from the first provider persists), and the
one appended account row points at the existing User's id.  Stated for a
first GitHub login onto an existing (e.g. Google-created) user and for a
first Google login onto an existing (e.g. GitHub-created) user. -/
theorem cross_provider_linking
    (db : DB) (ginfo : GoogleUserInfo) (hinfo : GithubUserInfo) (token : OAuthToken)
    (now : Int) (uid aid : List Nat) (u : User) :
    (hinfo.email ≠ [] →
      findGithubByPAID db (bs "github") (intBytes hinfo.id) = none →
      findUserByEmail db hinfo.email = some u →
      ∃ acct, handleGithubCallback db (.ok hinfo) token now uid aid =
          .ok (u, ⟨db.users, db.googleAccounts, db.githubAccounts ++ [acct]⟩) ∧
        acct.userID = u.id ∧ acct.provider = bs "github" ∧
        acct.providerAccountID = intBytes hinfo.id) ∧
    (ginfo.verifiedEmail = true →
      findGoogleByPAID db (bs "google") ginfo.id = none →
      findUserByEmail db ginfo.email = some u →
      ∃ acct, handleGoogleCallback db (.ok ginfo) token now uid aid =
          .ok (u, ⟨db.users, db.googleAccounts ++ [acct], db.githubAccounts⟩) ∧
        acct.userID = u.id ∧ acct.provider = bs "google" ∧
        acct.providerAccountID = ginfo.id) := by
  constructor
  · intro hv hfind hemail
    refine ⟨⟨aid, u.id, bs "github", intBytes hinfo.id, token.accessToken,
        token.refreshToken, if token.expiry ≠ 0 then some token.expiry else none,
        now, now⟩, ?_, rfl, rfl, rfl⟩
    simp only [handleGithubCallback, hv, if_false, hfind, hemail]
    rfl
  · intro hv hfind hemail
    refine ⟨⟨aid, u.id, bs "google", ginfo.id, token.accessToken,
        token.refreshToken, if token.expiry ≠ 0 then some token.expiry else none,
        now, now⟩, ?_, rfl, rfl, rfl⟩
    simp only [handleGoogleCallback, hv, Bool.not_true, Bool.false_eq_true, if_false,
      hfind, hemail]
    rfl

/-- Witness for C4: a GitHub first login with the email of a user created by
Google, against a store holding that one user and their google account. -/
theorem cross_provider_linking_witness :
    ∃ acct, handleGithubCallback
        ⟨[⟨bs "u1", bs "a@x.com", bs "Alice", bs "pic", 0, 0⟩],
         [⟨bs "a1", bs "u1", bs "google", bs "g-1", bs "at", bs "rt", some 5, 0, 0⟩], []⟩
        (.ok ⟨7, bs "alice-gh", bs "Alice GH", bs "a@x.com", bs "av"⟩)
        ⟨bs "at2", bs "rt2", 0⟩ 9 (bs "u2") (bs "a2") =
      .ok (⟨bs "u1", bs "a@x.com", bs "Alice", bs "pic", 0, 0⟩,
        ⟨[⟨bs "u1", bs "a@x.com", bs "Alice", bs "pic", 0, 0⟩],
         [⟨bs "a1", bs "u1", bs "google", bs "g-1", bs "at", bs "rt", some 5, 0, 0⟩],
         [] ++ [acct]⟩) ∧
      acct.userID = bs "u1" ∧ acct.provider = bs "github" ∧
      acct.providerAccountID = GoJson.intBytes 7 :=
  (cross_provider_linking
      ⟨[⟨bs "u1", bs "a@x.com", bs "Alice", bs "pic", 0, 0⟩],
       [⟨bs "a1", bs "u1", bs "google", bs "g-1", bs "at", bs "rt", some 5, 0, 0⟩], []⟩
      ⟨bs "g-1", bs "a@x.com", true, bs "Alice", bs "pic"⟩
      ⟨7, bs "alice-gh", bs "Alice GH", bs "a@x.com", bs "av"⟩
      ⟨bs "at2", bs "rt2", 0⟩ 9 (bs "u2") (bs "a2")
      ⟨bs "u1", bs "a@x.com", bs "Alice", bs "pic", 0, 0⟩).1
    (by decide) (by decide) (by decide)

end Usecase

namespace Handler

open GoJson

/-- Go type assertion `.(string)` on a session value (gorilla/sessions map;
missing key or a non-string value both yield the not-ok case). -/
def lookupStr (m : SessionValues) (key : List Nat) : Option (List Nat) :=
  match SessionStore.lookupVal m key with
  | some (GoValue.vStr s) => some s
  | _ => none

/-- Go type assertion `.(int64)`: the handler's gorilla cookie store encodes
sessions with gob, which preserves int64, so only `vInt` passes; a float64
value fails the assertion. -/
def lookupInt64 (m : SessionValues) (key : List Nat) : Option Int :=
  match SessionStore.lookupVal m key with
  | some (GoValue.vInt n) => some n
  | _ => none

/-- Go map assignment `m[key] = v`. -/
def setVal (m : SessionValues) (key : List Nat) (v : GoValue) : SessionValues :=
  if (m.find? (fun e => e.1 == key)).isSome
  then m.map (fun e => if e.1 == key then (key, v) else e)
  else m ++ [(key, v)]

/-- Go `delete(m, key)`. -/
def delVal (m : SessionValues) (key : List Nat) : SessionValues :=
  m.filter (fun e => !(e.1 == key))

/-- The cookie options the callback sets before saving. -/
structure CookieOpts where
  maxAge : Int
  httpOnly : Bool
  secure : Bool
  sameSite : SessionStore.SameSite
deriving DecidableEq, Repr

/-- Observable outcome of AuthHandler.Callback: the redirect target, whether
the usecase (and hence any provider-gateway operation, all of which happen
inside HandleCallback) was invoked, and the session cookie written by
session.Save — `none` when no save happened or the save failed, in which
case the client keeps its previous cookie. -/
structure CallbackResult where
  redirect : List Nat
  gatewayCalled : Bool
  savedCookie : Option (SessionValues × CookieOpts)
deriving DecidableEq, Repr

/-- AuthHandler.Callback and AuthHandler.CallbackGithub (textually identical
apart from the provider string passed to HandleCallback).  `values` is the
session the store decoded from the request, `usecaseResult` what
HandleCallback returned, `saveOk` whether session.Save succeeds, and
`isHTTPS` records whether the inbound request was HTTPS (including via
X-Forwarded-Proto) — the handler never consults it. -/
def callbackHandler (frontendURL : List Nat) (values : SessionValues)
    (queryState queryCode : List Nat)
    (usecaseResult : Except Usecase.AuthErr Usecase.User)
    (now : Int) (saveOk : Bool) (isHTTPS : Bool) : CallbackResult :=
  match lookupStr values (bs "oauth_state") with
  | none => ⟨frontendURL ++ bs "?error=invalid_state", false, none⟩
  | some savedState =>
      if savedState = [] then ⟨frontendURL ++ bs "?error=invalid_state", false, none⟩
      else if queryState ≠ savedState then
        ⟨frontendURL ++ bs "?error=invalid_state", false, none⟩
      else if queryCode = [] then ⟨frontendURL ++ bs "?error=no_code", false, none⟩
      else
        match usecaseResult with
        | .error _ => ⟨frontendURL ++ bs "?error=auth_failed", true, none⟩
        | .ok user =>
            let si := Usecase.createSession user 604800 now
            let values6 :=
              delVal
                (setVal (setVal (setVal (setVal (setVal values
                  (bs "user_id") (GoValue.vStr si.userID))
                  (bs "email") (GoValue.vStr si.email))
                  (bs "name") (GoValue.vStr si.name))
                  (bs "picture") (GoValue.vStr si.picture))
                  (bs "expires_at") (GoValue.vInt si.expiresAt))
                (bs "oauth_state")
            let opts : CookieOpts := ⟨604800, true, true, SessionStore.SameSite.laxMode⟩
            if saveOk then ⟨frontendURL, true, some (values6, opts)⟩
            else ⟨frontendURL ++ bs "?error=session_failed", true, none⟩

/-- The session cookie the client holds after a callback response: the saved
one if a Set-Cookie was written, otherwise the previous cookie. -/
def clientValuesAfter (cb : CallbackResult) (old : SessionValues) : SessionValues :=
  match cb.savedCookie with
  | some p => p.1
  | none => old

/-- Observable outcome of AuthHandler.Me: HTTP status, and whether the
response instructed the client to discard the cookie (MaxAge -1 save). -/
structure MeResult where
  status : Nat
  clearedCookie : Bool
deriving DecidableEq, Repr

/-- AuthHandler.Me: 401 when no (string) user_id; 401 plus cookie clear when
the int64 expiry is missing or in the past; then the user lookup (500 on
error, 200 on success). -/
def meHandler (values : SessionValues) (now : Int)
    (userRes : Except Unit Usecase.User) : MeResult :=
  match lookupStr values (bs "user_id") with
  | none => ⟨401, false⟩
  | some uid =>
      if uid = [] then ⟨401, false⟩
      else
        match lookupInt64 values (bs "expires_at") with
        | none => ⟨401, true⟩
        | some e =>
            if now > e then ⟨401, true⟩
            else
              match userRes with
              | .error _ => ⟨500, false⟩
              | .ok _ => ⟨200, false⟩

/-- Observable outcome of AuthMiddleware.RequireAuth: the error status if the
request was rejected (`none` means the wrapped handler ran), whether the
cookie was deleted, and the user id injected into the context. -/
structure MWResult where
  status : Option Nat
  deletedCookie : Bool
  ctxUserID : Option (List Nat)
deriving DecidableEq, Repr

/-- AuthMiddleware.RequireAuth.  The session argument is the result of
CookieStore.Get, which never fails (`get_fail_open`); the middleware's
error branch for Get is therefore dead code.  Missing/empty user id: 401.
Session.IsExpired (which accepts the float64 the JSON store produces):
delete cookie and 401.  Otherwise pass through with the user id. -/
def requireAuth (sess : SessionStore.Session) (now : Int) : MWResult :=
  let p := SessionStore.GetString sess (bs "user_id")
  if !p.2 || p.1 = [] then ⟨some 401, false, none⟩
  else if SessionStore.IsExpired sess (bs "expires_at") now then ⟨some 401, true, none⟩
  else ⟨none, false, some p.1⟩

theorem lookupVal_delVal (m : SessionValues) (k : List Nat) :
    SessionStore.lookupVal (delVal m k) k = none := by
  induction m with
  | nil => rfl
  | cons e m ih =>
    by_cases he : (e.1 == k) = true
    · rw [show delVal (e :: m) k = delVal m k by simp [delVal, List.filter_cons, he]]
      exact ih
    · rw [show delVal (e :: m) k = e :: delVal m k by simp [delVal, List.filter_cons, he]]
      have hstep : SessionStore.lookupVal (e :: delVal m k) k =
          SessionStore.lookupVal (delVal m k) k := by
        unfold SessionStore.lookupVal
        rw [List.find?_cons_of_neg (p := fun x : List Nat × GoValue => x.1 == k) _ he]
      rw [hstep]
      exact ih

theorem lookupStr_delVal (m : SessionValues) (k : List Nat) :
    lookupStr (delVal m k) k = none := by
  rw [lookupStr, lookupVal_delVal]

/-- Claim C5: whenever the pending state is absent (or not a string, or
empty) or the query state differs from it, the callback redirects to the
front-end with error=invalid_state, saves nothing, and never invokes the
usecase — hence neither the provider gateway's exchange nor its
fetch-profile runs. -/
theorem invalid_state_never_gateway (fe : List Nat) (values : SessionValues)
    (queryState queryCode : List Nat) (ucres : Except Usecase.AuthErr Usecase.User)
    (now : Int) (saveOk isHTTPS : Bool)
    (h : ∀ s, lookupStr values (bs "oauth_state") = some s → s = [] ∨ queryState ≠ s) :
    callbackHandler fe values queryState queryCode ucres now saveOk isHTTPS =
      ⟨fe ++ bs "?error=invalid_state", false, none⟩ := by
  cases hls : lookupStr values (bs "oauth_state") with
  | none => simp [callbackHandler, hls]
  | some s =>
    by_cases hs2 : s = []
    · subst hs2
      simp [callbackHandler, hls]
    · rcases h s hls with hs | hs
      · exact absurd hs hs2
      · simp only [callbackHandler, hls]
        rw [if_neg hs2, if_pos hs]

/-- Witness for C5: pending state "s", query state "t". -/
theorem invalid_state_never_gateway_witness :
    callbackHandler (bs "http://fe") [(bs "oauth_state", GoValue.vStr (bs "s"))]
        (bs "t") (bs "c") (.error .exchangeFailed) 0 true false =
      ⟨bs "http://fe" ++ bs "?error=invalid_state", false, none⟩ :=
  invalid_state_never_gateway (bs "http://fe") [(bs "oauth_state", GoValue.vStr (bs "s"))]
    (bs "t") (bs "c") (.error .exchangeFailed) 0 true false
    (fun s hs => by
      have hseq : s = bs "s" := by
        have : lookupStr [(bs "oauth_state", GoValue.vStr (bs "s"))] (bs "oauth_state") =
            some (bs "s") := by decide
        rw [this] at hs
        injection hs with hs
        exact hs.symm
      subst hseq
      exact Or.inr (by decide))

/-- Claim C6 (amended): the pending state is deleted from the session only
when the whole callback succeeds — the deletion rides on the successful
session save; on any failure after validation (usecase error) no cookie is
written, the client keeps its previous session, and the still-present state
would be accepted again.  The success conjunct shows the saved cookie no
longer holds oauth_state; the failure conjunct shows nothing is saved. -/
theorem state_deleted_only_on_success (fe : List Nat) (values : SessionValues)
    (queryState queryCode : List Nat) (user : Usecase.User) (e : Usecase.AuthErr)
    (now : Int) (isHTTPS : Bool)
    (hstate : lookupStr values (bs "oauth_state") = some queryState)
    (hne : queryState ≠ []) (hcode : queryCode ≠ []) :
    (∃ v2, callbackHandler fe values queryState queryCode (.ok user) now true isHTTPS =
        ⟨fe, true, some (v2, ⟨604800, true, true, SessionStore.SameSite.laxMode⟩)⟩ ∧
      lookupStr v2 (bs "oauth_state") = none) ∧
    (callbackHandler fe values queryState queryCode (.error e) now true isHTTPS).savedCookie
        = none ∧
    clientValuesAfter (callbackHandler fe values queryState queryCode (.error e) now true
      isHTTPS) values = values := by
  have hqq : ¬(queryState ≠ queryState) := fun hh => hh rfl
  constructor
  · refine ⟨delVal (setVal (setVal (setVal (setVal (setVal values
        (bs "user_id") (GoValue.vStr user.id))
        (bs "email") (GoValue.vStr user.email))
        (bs "name") (GoValue.vStr user.name))
        (bs "picture") (GoValue.vStr user.imageURL))
        (bs "expires_at") (GoValue.vInt (now + 604800)))
        (bs "oauth_state"), ?_, lookupStr_delVal _ _⟩
    simp only [callbackHandler, hstate]
    rw [if_neg hne, if_neg hqq, if_neg hcode, if_pos trivial]
    rfl
  · have hred : callbackHandler fe values queryState queryCode (.error e) now true isHTTPS =
        ⟨fe ++ bs "?error=auth_failed", true, none⟩ := by
      simp only [callbackHandler, hstate]
      rw [if_neg hne, if_neg hqq, if_neg hcode]
    rw [hred]
    exact ⟨rfl, rfl⟩

/-- Counterexample to C6 as stated: with pending state "s", a first callback
whose token exchange fails passes state validation (the gateway is reached)
but writes no cookie, so the client still holds oauth_state = "s"; a second
callback presenting the very same state is accepted again (it reaches the
gateway and, succeeding, redirects to the front-end) — the issued state
value was accepted twice across two callback requests. -/
theorem state_reuse_counterexample :
    (callbackHandler (bs "http://fe") [(bs "oauth_state", GoValue.vStr (bs "s"))]
        (bs "s") (bs "c") (.error .exchangeFailed) 0 true false).gatewayCalled = true ∧
    clientValuesAfter (callbackHandler (bs "http://fe")
        [(bs "oauth_state", GoValue.vStr (bs "s"))]
        (bs "s") (bs "c") (.error .exchangeFailed) 0 true false)
        [(bs "oauth_state", GoValue.vStr (bs "s"))] =
      [(bs "oauth_state", GoValue.vStr (bs "s"))] ∧
    (callbackHandler (bs "http://fe") [(bs "oauth_state", GoValue.vStr (bs "s"))]
        (bs "s") (bs "c") (.ok ⟨bs "u1", bs "e", bs "n", bs "p", 0, 0⟩) 0 true
        false).gatewayCalled = true ∧
    (callbackHandler (bs "http://fe") [(bs "oauth_state", GoValue.vStr (bs "s"))]
        (bs "s") (bs "c") (.ok ⟨bs "u1", bs "e", bs "n", bs "p", 0, 0⟩) 0 true
        false).redirect = bs "http://fe" := by
  decide

/-- Claim C9 (amended): on every successful callback the session cookie is
written with MaxAge 7 days, HttpOnly, Secure = true and SameSite = Lax —
unconditionally, whatever the request scheme (`isHTTPS` is a free input the
handler never reads). -/
theorem cookie_flags_always_secure_lax (fe : List Nat) (values : SessionValues)
    (queryState queryCode : List Nat) (user : Usecase.User) (now : Int)
    (isHTTPS : Bool)
    (hstate : lookupStr values (bs "oauth_state") = some queryState)
    (hne : queryState ≠ []) (hcode : queryCode ≠ []) :
    ∃ v2, callbackHandler fe values queryState queryCode (.ok user) now true isHTTPS =
      ⟨fe, true, some (v2, ⟨604800, true, true, SessionStore.SameSite.laxMode⟩)⟩ := by
  have hqq : ¬(queryState ≠ queryState) := fun hh => hh rfl
  refine ⟨delVal (setVal (setVal (setVal (setVal (setVal values
      (bs "user_id") (GoValue.vStr user.id))
      (bs "email") (GoValue.vStr user.email))
      (bs "name") (GoValue.vStr user.name))
      (bs "picture") (GoValue.vStr user.imageURL))
      (bs "expires_at") (GoValue.vInt (now + 604800)))
      (bs "oauth_state"), ?_⟩
  simp only [callbackHandler, hstate]
  rw [if_neg hne, if_neg hqq, if_neg hcode, if_pos trivial]
  rfl

/-- Witness for C6 (amended) at a concrete successful and a concrete failing
callback with pending state "s". -/
theorem state_deleted_only_on_success_witness :
    (∃ v2, callbackHandler (bs "f") [(bs "oauth_state", GoValue.vStr (bs "s"))]
        (bs "s") (bs "c") (.ok ⟨bs "u1", bs "e", bs "n", bs "p", 0, 0⟩) 0 true false =
        ⟨bs "f", true, some (v2, ⟨604800, true, true, SessionStore.SameSite.laxMode⟩)⟩ ∧
      lookupStr v2 (bs "oauth_state") = none) ∧
    (callbackHandler (bs "f") [(bs "oauth_state", GoValue.vStr (bs "s"))]
        (bs "s") (bs "c") (.error .exchangeFailed) 0 true false).savedCookie = none ∧
    clientValuesAfter (callbackHandler (bs "f") [(bs "oauth_state", GoValue.vStr (bs "s"))]
        (bs "s") (bs "c") (.error .exchangeFailed) 0 true false)
        [(bs "oauth_state", GoValue.vStr (bs "s"))] =
      [(bs "oauth_state", GoValue.vStr (bs "s"))] :=
  state_deleted_only_on_success (bs "f") [(bs "oauth_state", GoValue.vStr (bs "s"))]
    (bs "s") (bs "c") ⟨bs "u1", bs "e", bs "n", bs "p", 0, 0⟩ .exchangeFailed 0 false
    (by decide) (by decide) (by decide)

/-- Counterexample to C9 as stated: a successful callback on a request that
was NOT HTTPS (isHTTPS = false) still writes the cookie with Secure = true —
not mirroring the request scheme — and with SameSite = Lax even though the
claim requires SameSite=None whenever Secure is set.  The handler contains
no X-Forwarded-Proto or TLS inspection at all. -/
theorem cookie_flags_counterexample :
    callbackHandler (bs "f") [(bs "oauth_state", GoValue.vStr (bs "s"))] (bs "s") (bs "c")
        (.ok ⟨bs "u1", bs "e", bs "n", bs "p", 0, 0⟩) 0 true false =
      ⟨bs "f", true, some
        ([(bs "user_id", GoValue.vStr (bs "u1")), (bs "email", GoValue.vStr (bs "e")),
          (bs "name", GoValue.vStr (bs "n")), (bs "picture", GoValue.vStr (bs "p")),
          (bs "expires_at", GoValue.vInt 604800)],
         ⟨604800, true, true, SessionStore.SameSite.laxMode⟩)⟩ ∧
    ((true : Bool) ≠ false ∧
      SessionStore.SameSite.laxMode ≠ SessionStore.SameSite.noneMode) := by
  decide

/-- Witness for C9 (amended) at a concrete non-HTTPS request. -/
theorem cookie_flags_always_secure_lax_witness :
    ∃ v2, callbackHandler (bs "f2") [(bs "oauth_state", GoValue.vStr (bs "s2"))]
        (bs "s2") (bs "cd") (.ok ⟨bs "u9", bs "e9", bs "n9", bs "p9", 0, 0⟩) 5 true false =
      ⟨bs "f2", true, some (v2, ⟨604800, true, true, SessionStore.SameSite.laxMode⟩)⟩ :=
  cookie_flags_always_secure_lax (bs "f2") [(bs "oauth_state", GoValue.vStr (bs "s2"))]
    (bs "s2") (bs "cd") ⟨bs "u9", bs "e9", bs "n9", bs "p9", 0, 0⟩ 5 false
    (by decide) (by decide) (by decide)

/-- Claim C8: a session whose embedded expiry satisfies now > expiresAt is
treated like an absent session by both consumers of the session — the
values-level check runs only after signature verification succeeded, so
signature validity does not rescue it.  GET /auth/me answers 401 and writes
the MaxAge -1 cookie clear in the same response; the middleware rejects with
401 and deletes the cookie. -/
theorem expired_session_is_absent (values : SessionValues) (sess : SessionStore.Session)
    (now : Int) (userRes : Except Unit Usecase.User) (uid uids : List Nat) (e1 e2 : Int)
    (h1 : lookupStr values (bs "user_id") = some uid) (h2 : uid ≠ [])
    (h3 : lookupInt64 values (bs "expires_at") = some e1) (h4 : now > e1)
    (g1 : SessionStore.GetString sess (bs "user_id") = (uids, true)) (g2 : uids ≠ [])
    (g3 : SessionStore.GetInt64 sess (bs "expires_at") = (e2, true)) (g4 : now > e2) :
    meHandler values now userRes = ⟨401, true⟩ ∧
    requireAuth sess now = ⟨some 401, true, none⟩ := by
  constructor
  · simp only [meHandler, h1, h3]
    rw [if_neg h2, if_pos h4]
  · simp only [requireAuth, g1]
    rw [if_neg (by simp [g2])]
    rw [if_pos (by simp [SessionStore.IsExpired, g3, g4])]

/-- Witness for C8: an expired session (expiry 10, now 11) with user id
present in both the handler-level and the middleware-level session. -/
theorem expired_session_is_absent_witness :
    meHandler [(bs "user_id", GoValue.vStr (bs "u1")), (bs "expires_at", GoValue.vInt 10)]
        11 (.ok ⟨bs "u1", bs "e", bs "n", bs "p", 0, 0⟩) = ⟨401, true⟩ ∧
    requireAuth ⟨[(bs "user_id", GoValue.vStr (bs "u1")),
        (bs "expires_at", GoValue.vFloat 10)], SessionStore.storeOptions⟩ 11 =
      ⟨some 401, true, none⟩ :=
  expired_session_is_absent
    [(bs "user_id", GoValue.vStr (bs "u1")), (bs "expires_at", GoValue.vInt 10)]
    ⟨[(bs "user_id", GoValue.vStr (bs "u1")), (bs "expires_at", GoValue.vFloat 10)],
      SessionStore.storeOptions⟩
    11 (.ok ⟨bs "u1", bs "e", bs "n", bs "p", 0, 0⟩) (bs "u1") (bs "u1") 10 10
    (by decide) (by decide) (by decide) (by decide)
    (by decide) (by decide) (by decide) (by decide)

end Handler

end GoAuth
